import Mathlib

/-!
Verification development for the connection routing and rendering engine of a
process-flow-diagram editor.  The embedded code is
`src/desktop-frontend/src/connection.py` (class `Connection`: the orthogonal
path planner `calculate_path`, the jump compositor `_generate_jump_path`,
serialization `to_dict`) together with the per-frame driver
`draw_connections` from `src/desktop-frontend/src/canvas/painter.py`.

Conventions of the embedding:
* Python floats are embedded as elements of a linear ordered field `K`
  (instantiated at `ℚ` for the planner, whose arithmetic is exact, and at
  `ℝ` for the compositor, which uses Euclidean lengths via `Real.sqrt`).
* `QPointF` becomes `Pt K`, `QRectF` becomes `Rect K` (stored as x, y, w, h,
  exactly the data QRectF carries; `right = x + w`, `bottom = y + h`).
* A `ComponentWidget` (external collaborator, not part of the repository's
  sources) is abstracted to exactly what `Connection` reads from it: its
  `logical_rect` and its total grip resolver `get_logical_grip_position`.
* CPython object identity (used by `other == self` and `list.index`) is
  embedded as a numeric `id` field on `Connection`.
* `QPainterPath` is embedded as the list of drawing operations issued to it
  (`moveTo` / `lineTo` / `arcTo`), which is exactly the information the
  renderer consumes.
-/

namespace PFD

/-- A 2-D point (embeds `QPointF`). -/
structure Pt (K : Type) where
  x : K
  y : K
deriving DecidableEq

/-- A rectangle, stored as in `QRectF`: top-left corner plus width/height. -/
structure Rect (K : Type) where
  x : K
  y : K
  w : K
  h : K
deriving DecidableEq

variable {K : Type} [LinearOrderedField K]

def Rect.left (r : Rect K) : K := r.x

def Rect.top (r : Rect K) : K := r.y

def Rect.right (r : Rect K) : K := r.x + r.w

def Rect.bottom (r : Rect K) : K := r.y + r.h

def Rect.topLeft (r : Rect K) : Pt K := ⟨r.x, r.y⟩

/-- Pointwise addition of points (QPointF `+`). -/
instance : Add (Pt K) := ⟨fun p q => ⟨p.x + q.x, p.y + q.y⟩⟩

/-- The component collaborator, abstracted to the two capabilities
`Connection` uses: `logical_rect` and `get_logical_grip_position`. -/
structure Component (K : Type) where
  logical_rect : Rect K
  get_logical_grip_position : Nat → Pt K

/-- One drawing operation issued to the `QPainterPath`. `arcTo` records the
bounding rectangle of the circle (top-left corner, width, height) and the
start/sweep angles in degrees, exactly the arguments of
`QPainterPath.arcTo`. -/
inductive PathElem (K : Type) where
  | moveTo (p : Pt K)
  | lineTo (p : Pt K)
  | arcTo (topLeft : Pt K) (w h startAngle sweep : K)

/-- The `Connection` object state (`Connection.__init__` plus the fields the
methods read/write).  `id` embeds CPython object identity: `other == self`
and `list.index` compare objects by identity, which we model by comparing
`id` fields. -/
structure Connection (K : Type) where
  id : Nat
  start_component : Component K
  start_grip_index : Nat
  start_side : String
  end_component : Option (Component K) := none
  end_grip_index : Option Nat := none
  end_side : Option String := none
  snap_component : Option (Component K) := none
  snap_grip_index : Option Nat := none
  snap_side : Option String := none
  current_pos : Pt K
  path : List (Pt K) := []
  painter_path : List (PathElem K) := []
  is_selected : Bool := false
  path_offset : K
  start_adjust : K
  end_adjust : K

/-- `Connection.get_start_pos`.  Our components always expose
`logical_rect`, so the `hasattr` test in the source always takes the first
branch. -/
def Connection.get_start_pos (c : Connection K) : Pt K :=
  c.start_component.logical_rect.topLeft +
    c.start_component.get_logical_grip_position c.start_grip_index

/-- `Connection.get_end_pos`: precedence bound end > snap target > raw
cursor position.  (`end_grip_index` is set together with `end_component` by
`set_end_grip`, so the `getD 0` default is never reached on states produced
by the code; likewise for the snap fields.) -/
def Connection.get_end_pos (c : Connection K) : Pt K :=
  match c.end_component with
  | some ec => ec.logical_rect.topLeft +
      ec.get_logical_grip_position (c.end_grip_index.getD 0)
  | none =>
    match c.snap_component with
    | some sc => sc.logical_rect.topLeft +
        sc.get_logical_grip_position (c.snap_grip_index.getD 0)
    | none => c.current_pos

/-- Python truthiness of an optional string (`None` and `""` are falsy). -/
def truthyS : Option String → Bool
  | none => false
  | some s => !(s == "")

/-- `Connection._guess_approach_side`. -/
def guess_approach_side (s e : Pt K) : String :=
  let dx := e.x - s.x
  let dy := e.y - s.y
  if |dx| > |dy| then (if dx > 0 then "left" else "right")
  else (if dy > 0 then "top" else "bottom")

/-- `off_start = max(10.0, 30.0 + self.start_adjust)` (calculate_path). -/
def Connection.off_start (c : Connection K) : K := max 10 (30 + c.start_adjust)

/-- `off_end = max(10.0, 20.0 + self.end_adjust)` (calculate_path). -/
def Connection.off_end (c : Connection K) : K := max 10 (20 + c.end_adjust)

/-- The end-item rectangle used for avoidance: the bound end component's
rect, else the snap component's rect, else a fake 20×20 rect around the end
point (calculate_path). -/
def Connection.eitem (c : Connection K) : Rect K :=
  match c.end_component with
  | some ec => ec.logical_rect
  | none =>
    match c.snap_component with
    | some sc => sc.logical_rect
    | none => ⟨c.get_end_pos.x - 10, c.get_end_pos.y - 10, 20, 20⟩

/-- "Next to start" point `ns` (calculate_path step 1). -/
def Connection.ns (c : Connection K) : Pt K :=
  let s := c.get_start_pos
  if c.start_side = "top" then ⟨s.x, s.y - c.off_start⟩
  else if c.start_side = "bottom" then ⟨s.x, s.y + c.off_start⟩
  else if c.start_side = "left" then ⟨s.x - c.off_start, s.y⟩
  else if c.start_side = "right" then ⟨s.x + c.off_start, s.y⟩
  else ⟨s.x + c.off_start, s.y⟩

/-- Target side resolution (calculate_path step 2): final end side, else
snap side, else the heuristic guess; Python's `not target_side` treats both
`None` and `""` as absent. -/
def Connection.target_side (c : Connection K) : String :=
  let t1 := if !truthyS c.end_side && truthyS c.snap_side then c.snap_side
            else c.end_side
  if truthyS t1 then t1.getD ""
  else guess_approach_side c.get_start_pos c.get_end_pos

/-- "Previous to end" point `pe` (calculate_path step 2). -/
def Connection.pe (c : Connection K) : Pt K :=
  let e := c.get_end_pos
  if c.target_side = "top" then ⟨e.x, e.y - c.off_end⟩
  else if c.target_side = "bottom" then ⟨e.x, e.y + c.off_end⟩
  else if c.target_side = "left" then ⟨e.x - c.off_end, e.y⟩
  else if c.target_side = "right" then ⟨e.x + c.off_end, e.y⟩
  else ⟨e.x - c.off_end, e.y⟩

/-- The intermediate points appended between `start_point` and `end_point`
by `calculate_path` ("3. Intermediate Points Logic"), one branch per
`(start_side, target_side)` case, transcribed from the source.  When
`start_side` is none of the four sides no branch fires and the list is
empty. -/
def Connection.mid_points (c : Connection K) : List (Pt K) :=
  let start_point := c.get_start_pos
  let end_point := c.get_end_pos
  let ns := c.ns
  let pe := c.pe
  let ts := c.target_side
  let sitem := c.start_component.logical_rect
  let eitem := c.eitem
  let off_mid : K := 20 + c.path_offset
  let effective_end_offset := c.off_end
  if c.start_side = "right" then
    if ts = "left" then
      if start_point.x + c.off_start < end_point.x - effective_end_offset then
        let mid_x := (start_point.x + end_point.x) / 2 + c.path_offset
        [⟨mid_x, start_point.y⟩, ⟨mid_x, end_point.y⟩]
      else
        let y := max sitem.bottom eitem.bottom + off_mid
        [ns, ⟨ns.x, y⟩, ⟨pe.x, y⟩, pe]
    else if ts = "top" then [ns, ⟨ns.x, pe.y⟩, pe]
    else if ts = "bottom" then [ns, ⟨ns.x, pe.y⟩, pe]
    else
      let x := max sitem.right eitem.right + off_mid
      [ns, ⟨x, ns.y⟩, ⟨x, pe.y⟩, pe]
  else if c.start_side = "left" then
    if ts = "right" then
      if start_point.x - c.off_start > end_point.x + effective_end_offset then
        let mid_x := (start_point.x + end_point.x) / 2 + c.path_offset
        [⟨mid_x, start_point.y⟩, ⟨mid_x, end_point.y⟩]
      else
        let y := max sitem.bottom eitem.bottom + off_mid
        [ns, ⟨ns.x, y⟩, ⟨pe.x, y⟩, pe]
    else if ts = "top" then [ns, ⟨ns.x, pe.y⟩, pe]
    else if ts = "bottom" then [ns, ⟨ns.x, pe.y⟩, pe]
    else
      let x := min sitem.left eitem.left - off_mid
      [ns, ⟨x, ns.y⟩, ⟨x, pe.y⟩, pe]
  else if c.start_side = "top" then
    if ts = "bottom" then
      if start_point.y - c.off_start > end_point.y + effective_end_offset then
        let mid_y := (start_point.y + end_point.y) / 2 + c.path_offset
        [⟨start_point.x, mid_y⟩, ⟨end_point.x, mid_y⟩]
      else
        let x := max sitem.right eitem.right + off_mid
        [ns, ⟨x, ns.y⟩, ⟨x, pe.y⟩, pe]
    else if ts = "left" then [ns, ⟨pe.x, ns.y⟩, pe]
    else if ts = "right" then [ns, ⟨pe.x, ns.y⟩, pe]
    else
      let y := min sitem.top eitem.top - off_mid
      [ns, ⟨ns.x, y⟩, ⟨pe.x, y⟩, pe]
  else if c.start_side = "bottom" then
    if ts = "top" then
      if start_point.y + c.off_start < end_point.y - effective_end_offset then
        let mid_y := (start_point.y + end_point.y) / 2 + c.path_offset
        [⟨start_point.x, mid_y⟩, ⟨end_point.x, mid_y⟩]
      else
        let x := max sitem.right eitem.right + off_mid
        [ns, ⟨x, ns.y⟩, ⟨x, pe.y⟩, pe]
    else if ts = "left" then [ns, ⟨pe.x, ns.y⟩, pe]
    else if ts = "right" then [ns, ⟨pe.x, ns.y⟩, pe]
    else
      let y := max sitem.bottom eitem.bottom + off_mid
      [ns, ⟨ns.x, y⟩, ⟨pe.x, y⟩, pe]
  else []

/-- `Connection.calculate_path`: `points = [start_point]`, the intermediate
points, then `points.append(end_point)`.  (The `obstacles` parameter of the
source is unused there and omitted.) -/
def Connection.calculate_path (c : Connection K) : List (Pt K) :=
  c.get_start_pos :: (c.mid_points ++ [c.get_end_pos])

/-- Squared Euclidean distance between two points; `sqDist p q ≥ d²` is the
exact-field rendering of "the segment from p to q has length ≥ d". -/
def sqDist (p q : Pt K) : K := (p.x - q.x) ^ 2 + (p.y - q.y) ^ 2

/-! ### The jump compositor (`Connection._generate_jump_path`)

The compositor works on Euclidean geometry (`math.sqrt`, `math.atan2`), so
it is embedded at `K = ℝ`.  The helper functions below are the loop bodies
of the source method, in the order they appear there. -/

/-- The consecutive waypoint pairs of a polyline: the segments iterated by
`for i in range(len(path) - 1)`. -/
def segPairs {α : Type} (l : List α) : List (α × α) := l.zip l.tail

/-- `other_connections.index(self)`: the first position holding the object
(identity embedded as `id`). -/
def indexOfId (sibs : List (Connection K)) (i : Nat) : Nat :=
  sibs.findIdx fun o => o.id == i

/-- `self in other_connections` (membership by object identity). -/
def containsId (sibs : List (Connection K)) (i : Nat) : Bool :=
  sibs.any fun o => o.id == i

/-- `QLineF.intersect` of segment p1→p2 with segment q1→q2, returning the
intersection point exactly when Qt reports `BoundedIntersection` (the
parameters of both lines lie in [0,1]); transcribed from Qt's
`QLineF::intersects`. -/
def intersectBounded (p1 p2 q1 q2 : Pt K) : Option (Pt K) :=
  let ax := p2.x - p1.x
  let ay := p2.y - p1.y
  let bx := q1.x - q2.x
  let by' := q1.y - q2.y
  let cx := p1.x - q1.x
  let cy := p1.y - q1.y
  let denominator := ay * bx - ax * by'
  if denominator = 0 then none
  else
    let na := (by' * cx - bx * cy) / denominator
    if na < 0 ∨ na > 1 then none
    else
      let nb := (ax * cy - ay * cx) / denominator
      if nb < 0 ∨ nb > 1 then none
      else some ⟨p1.x + ax * na, p1.y + ay * na⟩

/-- Ascending insertion (auxiliary for `sortAsc`). -/
def insertSorted {α : Type} [LinearOrder α] (a : α) : List α → List α
  | [] => [a]
  | b :: l => if a ≤ b then a :: b :: l else b :: insertSorted a l

/-- `intersections.sort()`: sort ascending. -/
def sortAsc {α : Type} [LinearOrder α] (l : List α) : List α :=
  l.foldr insertSorted []

noncomputable section

/-- Euclidean distance (`math.sqrt((qx-px)**2 + (qy-py)**2)`); the segment
length is `distE p2 p1` and the intersection distance is `distE ip p1`. -/
def distE (q p : Pt ℝ) : ℝ := Real.sqrt ((q.x - p.x) ^ 2 + (q.y - p.y) ^ 2)

/-- `math.degrees(math.atan2(y, x))` (`Complex.arg` is exactly atan2). -/
def atan2deg (y x : ℝ) : ℝ := Complex.arg ⟨x, y⟩ * 180 / Real.pi

/-- The intersection-distance collection loop of `_generate_jump_path` for
one segment p1→p2 of `self` of length `length`: for every sibling — other
than `self` itself, skipped unless `self` is absent from the list or has
the not-smaller index (order-based jump ownership), and with a non-empty
path — every bounded segment intersection whose distance from p1 is
strictly between `r = 6` and `length - 6` contributes that distance. -/
def sib_intersections (self : Connection ℝ) (sibs : List (Connection ℝ))
    (p1 p2 : Pt ℝ) (length : ℝ) (other : Connection ℝ) : List ℝ :=
  if other.id = self.id then []
  else if containsId sibs self.id = true ∧
      indexOfId sibs self.id < indexOfId sibs other.id then []
  else if other.path.isEmpty = true then []
  else
    (segPairs other.path).flatMap fun q =>
      match intersectBounded p1 p2 q.1 q.2 with
      | none => []
      | some ip =>
        let dist := distE ip p1
        if 6 < dist ∧ dist < length - 6 then [dist] else []

def segment_intersections (self : Connection ℝ) (sibs : List (Connection ℝ))
    (p1 p2 : Pt ℝ) (length : ℝ) : List ℝ :=
  sibs.flatMap (sib_intersections self sibs p1 p2 length)

/-- The de-duplication loop body: keep a distance only if it is more than
`2.2 * r` past the last kept one. -/
def dedup_jumps_go (last : ℝ) : List ℝ → List ℝ
  | [] => []
  | d :: ds =>
    if d - last > 2.2 * 6 then d :: dedup_jumps_go d ds
    else dedup_jumps_go last ds

/-- `clean_intersections`: the first distance is always kept. -/
def dedup_jumps : List ℝ → List ℝ
  | [] => []
  | d :: ds => d :: dedup_jumps_go d ds

/-- The emission loop (`for dist in clean_intersections`): straight line up
to `dist - r` when that is ahead of the current position, then the jump arc
(circle rect centered on the crossing, radius `r = 6`, start angle
`-angle + 180`, sweep `-180`), resuming at `dist + r`.  Returns the emitted
elements and the final `current_dist`. -/
def emit_jumps (p1 u : Pt ℝ) : List ℝ → ℝ → List (PathElem ℝ) × ℝ
  | [], current => ([], current)
  | dist :: rest, current =>
    let segEnd := dist - 6
    let line : List (PathElem ℝ) :=
      if segEnd > current then
        [.lineTo ⟨p1.x + u.x * segEnd, p1.y + u.y * segEnd⟩]
      else []
    let angle := atan2deg u.y u.x
    let arc : PathElem ℝ :=
      .arcTo ⟨p1.x + u.x * dist - 6, p1.y + u.y * dist - 6⟩ 12 12
        (-angle + 180) (-180)
    let tail := emit_jumps p1 u rest (dist + 6)
    (line ++ arc :: tail.1, tail.2)

/-- One iteration of the outer segment loop of `_generate_jump_path`:
segments shorter than 0.1 are skipped entirely; otherwise the collected
intersection distances are sorted, de-duplicated and emitted, with a final
straight line to p2 when the walk stopped short of the segment end. -/
def segment_elems (self : Connection ℝ) (sibs : List (Connection ℝ))
    (p1 p2 : Pt ℝ) : List (PathElem ℝ) :=
  let length := distE p2 p1
  if length < 0.1 then []
  else
    let u : Pt ℝ := ⟨(p2.x - p1.x) / length, (p2.y - p1.y) / length⟩
    let clean :=
      dedup_jumps (sortAsc (segment_intersections self sibs p1 p2 length))
    let res := emit_jumps p1 u clean 0
    res.1 ++ (if res.2 < length then [.lineTo p2] else [])

/-- `Connection._generate_jump_path`: empty path gives an empty curve, else
`moveTo` the first waypoint followed by the per-segment emissions. -/
def Connection.generate_jump_path (self : Connection ℝ)
    (other_connections : List (Connection ℝ)) : List (PathElem ℝ) :=
  match self.path with
  | [] => []
  | p0 :: _ =>
    .moveTo p0 ::
      (segPairs self.path).flatMap fun q =>
        segment_elems self other_connections q.1 q.2

/-- The state effect of `_generate_jump_path`: `self.painter_path` is reset
to a fresh `QPainterPath` and rebuilt; nothing else changes. -/
def compose_with (sibs : List (Connection ℝ)) (c : Connection ℝ) :
    Connection ℝ :=
  { c with painter_path := c.generate_jump_path sibs }

/-- The state effect of `calculate_path`: `self.path` is reset and
recomputed from the endpoint state. -/
def plan_conn (c : Connection ℝ) : Connection ℝ :=
  { c with path := c.calculate_path }

/-- The arcs of a render curve, as (center, radius) pairs recovered from the
`arcTo` bounding rectangles. -/
def arcsOf {K : Type} [LinearOrderedField K] :
    List (PathElem K) → List (Pt K × K)
  | [] => []
  | .arcTo tl w h _ _ :: rest =>
    (⟨tl.x + w / 2, tl.y + h / 2⟩, w / 2) :: arcsOf rest
  | .moveTo _ :: rest => arcsOf rest
  | .lineTo _ :: rest => arcsOf rest

/-- Modelled from the spec: "the raw waypoint polyline" — `moveTo` the
first waypoint, then `lineTo` each subsequent waypoint. -/
def rawPolyline {K : Type} [LinearOrderedField K] :
    List (Pt K) → List (PathElem K)
  | [] => []
  | p0 :: rest => .moveTo p0 :: rest.map .lineTo

/-- The polyline actually produced with no siblings: `moveTo` the first
waypoint, then `lineTo` the end of each segment of length at least 0.1
(shorter segments are dropped entirely). -/
def polylineSkipShort : List (Pt ℝ) → List (PathElem ℝ)
  | [] => []
  | p0 :: rest =>
    .moveTo p0 ::
      (segPairs (p0 :: rest)).flatMap fun q =>
        if distE q.2 q.1 < 0.1 then [] else [.lineTo q.2]

/-! ### The frame driver (`draw_connections` in canvas/painter.py) -/

/-- One observable action of a frame: running the planner or the compositor
for the connection at a given position. -/
inductive FrameEvent where
  | plan (i : Nat)
  | compose (i : Nat)
deriving DecidableEq

/-- One iteration of `for conn in connections: conn.update_path(components,
connections)`: the connection at position `i` recomputes its waypoints
(`calculate_path`) and then its jump curve (`_generate_jump_path`) against
the shared, partially updated list — Python mutates the objects in place,
so the list already shows the new waypoints of position `i` and of every
earlier position.  The event trace records the two calls in order. -/
def frame_step (st : List (Connection ℝ) × List FrameEvent) (i : Nat) :
    List (Connection ℝ) × List FrameEvent :=
  match st.1[i]? with
  | none => st
  | some c =>
    let c1 := plan_conn c
    let cs1 := st.1.set i c1
    (cs1.set i (compose_with cs1 c1), st.2 ++ [.plan i, .compose i])

/-- `draw_connections` from canvas/painter.py: update every connection in
list order, returning the final connection states and the event trace. -/
def draw_connections (cs : List (Connection ℝ)) :
    List (Connection ℝ) × List FrameEvent :=
  (List.range cs.length).foldl frame_step (cs, [])

/-- Modelled from the spec: pass 1 of the two-pass frame update — run the
Path Planner for every connection. -/
def plan_all (cs : List (Connection ℝ)) : List (Connection ℝ) :=
  cs.map plan_conn

/-- Modelled from the spec: the two-pass frame update — pass 1 plans every
connection, pass 2 runs the Jump Compositor for every connection against
the fully planned list. -/
def two_pass_frame (cs : List (Connection ℝ)) : List (Connection ℝ) :=
  (plan_all cs).map (compose_with (plan_all cs))

/-- The hybrid state after `k` interleaved steps: the first `k` connections
planned and composed, the rest untouched. -/
def hybrid_frame (cs : List (Connection ℝ)) (k : Nat) :
    List (Connection ℝ) :=
  ((plan_all cs).take k).map (compose_with (plan_all cs)) ++ cs.drop k

end

/-! ### Serialization (`Connection.to_dict`) -/

/-- The record returned by `to_dict`: exactly the nine keys of the source's
dict literal, in source order; the derived fields (`path`,
`painter_path`) have no counterpart here because the source never writes
them into the record. -/
structure ConnDict (K : Type) where
  start_id : Int
  start_grip : Nat
  start_side : String
  end_id : Int
  end_grip : Option Nat
  end_side : Option String
  path_offset : K
  start_adjust : K
  end_adjust : K
deriving DecidableEq

/-- `Connection.to_dict(component_to_id)`.  The Python argument is a dict
keyed by component widgets, embedded as a partial map `Component K →
Option Int`; `dict.get(key, -1)` is `getD (-1)`, and looking up the `None`
end component misses (the dict's keys are widgets), giving `-1`. -/
def Connection.to_dict (c : Connection K)
    (component_to_id : Component K → Option Int) : ConnDict K :=
  { start_id := (component_to_id c.start_component).getD (-1),
    start_grip := c.start_grip_index,
    start_side := c.start_side,
    end_id := ((match c.end_component with
                | some ec => component_to_id ec
                | none => none : Option Int)).getD (-1),
    end_grip := c.end_grip_index,
    end_side := c.end_side,
    path_offset := c.path_offset,
    start_adjust := c.start_adjust,
    end_adjust := c.end_adjust }

/-! ### Concrete scenario data for the planner claims -/

/-- Component X of the spec's concrete scenario: rect (0,0,40,40), grip at
the midpoint of its right side. -/
def Xcomp : Component ℚ := ⟨⟨0, 0, 40, 40⟩, fun _ => ⟨40, 20⟩⟩

/-- Component Y of the spec's concrete scenario: rect (200,0,40,40), grip at
the midpoint of its left side. -/
def Ycomp : Component ℚ := ⟨⟨200, 0, 40, 40⟩, fun _ => ⟨0, 20⟩⟩

/-- The spec's concrete direct-path connection: X right grip → Y left grip,
all adjustments zero. -/
def connC5 : Connection ℚ :=
  { id := 0, start_component := Xcomp, start_grip_index := 0,
    start_side := "right",
    end_component := some Ycomp, end_grip_index := some 0,
    end_side := some "left",
    current_pos := ⟨0, 0⟩, path_offset := 0, start_adjust := 0,
    end_adjust := 0 }

def S4comp : Component ℚ := ⟨⟨0, 0, 10, 10⟩, fun _ => ⟨10, 5⟩⟩

def E4comp : Component ℚ := ⟨⟨40, 0, 10, 10⟩, fun _ => ⟨0, 5⟩⟩

/-- Stub-clamp counterexample connection: `start_adjust = -25 < -20` but a
mid-segment offset `path_offset = -13` drags the first direct-branch
waypoint to within 2 units of the start anchor. -/
def connC4cex : Connection ℚ :=
  { id := 0, start_component := S4comp, start_grip_index := 0,
    start_side := "right",
    end_component := some E4comp, end_grip_index := some 0,
    end_side := some "left",
    current_pos := ⟨0, 0⟩, path_offset := -13, start_adjust := -25,
    end_adjust := -25 }

/-- Stub-clamp witness connection: `start_adjust = -25`, `path_offset = 0`. -/
def connC4wit : Connection ℚ :=
  { id := 0, start_component := S4comp, start_grip_index := 0,
    start_side := "right",
    end_component := some E4comp, end_grip_index := some 0,
    end_side := some "left",
    current_pos := ⟨0, 0⟩, path_offset := 0, start_adjust := -25,
    end_adjust := 0 }

def S6comp : Component ℚ := ⟨⟨0, 0, 10, 10⟩, fun _ => ⟨10, 5⟩⟩

def E6comp : Component ℚ := ⟨⟨100, 100, 10, 10⟩, fun _ => ⟨5, 0⟩⟩

/-- Perpendicular-pair counterexample connection: start right, target top. -/
def connC6cex : Connection ℚ :=
  { id := 0, start_component := S6comp, start_grip_index := 0,
    start_side := "right",
    end_component := some E6comp, end_grip_index := some 0,
    end_side := some "top",
    current_pos := ⟨0, 0⟩, path_offset := 0, start_adjust := 0,
    end_adjust := 0 }

def E6bcomp : Component ℚ := ⟨⟨100, 100, 10, 10⟩, fun _ => ⟨5, 10⟩⟩

/-- Perpendicular-pair witness connection: start left, target bottom. -/
def connC6wit : Connection ℚ :=
  { id := 0, start_component := S6comp, start_grip_index := 0,
    start_side := "left",
    end_component := some E6bcomp, end_grip_index := some 0,
    end_side := some "bottom",
    current_pos := ⟨0, 0⟩, path_offset := 0, start_adjust := 0,
    end_adjust := 0 }

/-! ### Concrete scenario data for the compositor and frame claims -/

/-- A dummy ℝ-valued component (the compositor reads only `path` and `id`
of the connections involved). -/
noncomputable def compR : Component ℝ := ⟨⟨0, 0, 10, 10⟩, fun _ => ⟨0, 0⟩⟩

/-- An ℝ-valued connection with a given identity and waypoint list. -/
noncomputable def connR (n : Nat) (pts : List (Pt ℝ)) : Connection ℝ :=
  { id := n, start_component := compR, start_grip_index := 0,
    start_side := "right", current_pos := ⟨0, 0⟩, path := pts,
    path_offset := 0, start_adjust := 0, end_adjust := 0 }

/-- C2 witness data: a horizontal connection (index 0). -/
noncomputable def connA2 : Connection ℝ := connR 0 [⟨0, 0⟩, ⟨100, 0⟩]

/-- C2 witness data: a vertical connection (index 1) crossing `connA2` at
(50, 0). -/
noncomputable def connB2 : Connection ℝ := connR 1 [⟨50, -50⟩, ⟨50, 50⟩]

/-- C10 witness data: a connection absent from the sibling list it is
composed against. -/
noncomputable def connSelf10 : Connection ℝ := connR 5 [⟨0, 0⟩, ⟨100, 0⟩]

/-- C10 witness data: the sole, lower-id member of the sibling list. -/
noncomputable def connO10 : Connection ℝ := connR 3 [⟨50, -50⟩, ⟨50, 50⟩]

/-- C7 data: a connection with an empty waypoint list. -/
noncomputable def connEmptyPath : Connection ℝ := connR 7 []

/-- C7 data: a plain two-waypoint connection. -/
noncomputable def connPoly : Connection ℝ := connR 8 [⟨0, 0⟩, ⟨100, 0⟩]

/-- C7 counterexample data: the middle segment has length 0 < 0.1. -/
noncomputable def connShortSeg : Connection ℝ :=
  connR 9 [⟨0, 0⟩, ⟨0, 0⟩, ⟨10, 0⟩]

/-- C3 data: a two-connection frame. -/
noncomputable def csFrame : List (Connection ℝ) :=
  [connR 30 [], connR 31 []]

/-- C8 witness data: a connection with an unbound end. -/
def connC8 : Connection ℚ :=
  { id := 0, start_component := Xcomp, start_grip_index := 2,
    start_side := "right", current_pos := ⟨7, 8⟩, path_offset := 1,
    start_adjust := 2, end_adjust := 3 }

/-- C8 witness data: an id map that assigns 3 to components with X's
rectangle and nothing to any other component. -/
def idMapC8 : Component ℚ → Option Int :=
  fun comp => if comp.logical_rect = (⟨0, 0, 40, 40⟩ : Rect ℚ) then some 3
              else none

/-! ### Helper lemmas -/

@[simp] theorem Pt.add_x (p q : Pt K) : (p + q).x = p.x + q.x := rfl

@[simp] theorem Pt.add_y (p q : Pt K) : (p + q).y = p.y + q.y := rfl

@[simp] theorem Pt.mk_add_mk (a b c d : K) :
    (⟨a, b⟩ + ⟨c, d⟩ : Pt K) = ⟨a + c, b + d⟩ := rfl

theorem getLast?_append_singleton {α : Type} (l : List α) (a : α) :
    (l ++ [a]).getLast? = some a := by
  induction l with
  | nil => rfl
  | cons x xs ih =>
    rw [List.cons_append]
    cases h : xs ++ [a] with
    | nil => simp at h
    | cons y ys => rw [List.getLast?_cons_cons, ← h, ih]

/-! ### C1 -/

/-- C1: for every connection — any start side, any end state (bound,
snap-pending or free), any adjustment scalars — `calculate_path` produces a
waypoint list of length at least 2 whose first point is the resolved start
anchor and whose last point is the resolved end anchor, and `get_end_pos`
resolves the end anchor with precedence bound end > snap target > raw
cursor position. -/
theorem calculate_path_endpoints_invariant (c : Connection ℚ) :
    2 ≤ c.calculate_path.length ∧
    c.calculate_path.head? = some c.get_start_pos ∧
    c.calculate_path.getLast? = some c.get_end_pos ∧
    (∀ ec, c.end_component = some ec →
      c.get_end_pos = ec.logical_rect.topLeft +
        ec.get_logical_grip_position (c.end_grip_index.getD 0)) ∧
    (c.end_component = none → ∀ sc, c.snap_component = some sc →
      c.get_end_pos = sc.logical_rect.topLeft +
        sc.get_logical_grip_position (c.snap_grip_index.getD 0)) ∧
    (c.end_component = none → c.snap_component = none →
      c.get_end_pos = c.current_pos) := by
  refine ⟨?_, rfl, ?_, ?_, ?_, ?_⟩
  · simp [Connection.calculate_path]
  · show (c.get_start_pos :: (c.mid_points ++ [c.get_end_pos])).getLast? = _
    rw [← List.cons_append, getLast?_append_singleton]
  · intro ec hec
    simp [Connection.get_end_pos, hec]
  · intro hec sc hsc
    simp [Connection.get_end_pos, hec, hsc]
  · intro hec hsc
    simp [Connection.get_end_pos, hec, hsc]

/-- C1 witness: the invariant applied to the concrete bound connection
`connC5`; the bound-end precedence rule gives the Y grip anchor (200,20). -/
theorem calculate_path_endpoints_invariant_witness :
    2 ≤ connC5.calculate_path.length ∧ connC5.get_end_pos = ⟨200, 20⟩ := by
  obtain ⟨h2, -, -, hbound, -, -⟩ := calculate_path_endpoints_invariant connC5
  refine ⟨h2, ?_⟩
  rw [hbound Ycomp rfl]
  simp [Ycomp, Rect.topLeft]

/-! ### C5 -/

/-- C5: the spec's concrete direct-path scenario — X at rect (0,0,40,40)
with right-mid grip (40,20), Y at rect (200,0,40,40) with left-mid grip
(200,20), all adjustments zero — yields exactly the 4-point path
[(40,20), (120,20), (120,20), (200,20)] with midline x = 120, and the
clearance test `start.x + off_start < end.x - off_end` (70 < 180) holds,
selecting the direct branch. -/
theorem direct_path_concrete_scenario :
    connC5.calculate_path =
      [⟨40, 20⟩, ⟨120, 20⟩, ⟨120, 20⟩, ⟨200, 20⟩] ∧
    connC5.get_start_pos.x + connC5.off_start <
      connC5.get_end_pos.x - connC5.off_end := by
  constructor
  · simp [Connection.calculate_path, Connection.mid_points,
      Connection.get_start_pos, Connection.get_end_pos, Connection.ns,
      Connection.pe, Connection.target_side, Connection.eitem,
      Connection.off_start, Connection.off_end, truthyS,
      guess_approach_side, Rect.topLeft, connC5, Xcomp, Ycomp]
    norm_num
  · simp [Connection.get_start_pos, Connection.get_end_pos,
      Connection.off_start, Connection.off_end, Rect.topLeft, connC5,
      Xcomp, Ycomp]
    norm_num

/-! ### C4 -/

/-- C4 counterexample: the claim quantifies over all values of the other
adjustment scalars, but with `start_adjust = -25 < -20` and
`path_offset = -13` the direct branch puts the second waypoint at (12,5),
only 2 units (squared distance 4 < 100) from the start anchor (10,5): the
first segment is shorter than 10 units. -/
theorem stub_clamp_counterexample :
    connC4cex.start_adjust < -20 ∧
    connC4cex.calculate_path[0]? = some ⟨10, 5⟩ ∧
    connC4cex.calculate_path[1]? = some ⟨12, 5⟩ ∧
    sqDist (⟨10, 5⟩ : Pt ℚ) ⟨12, 5⟩ < 100 := by
  refine ⟨by norm_num [connC4cex], ?_, ?_, by norm_num [sqDist]⟩ <;>
    simp [Connection.calculate_path, Connection.mid_points,
      Connection.get_start_pos, Connection.get_end_pos, Connection.ns,
      Connection.pe, Connection.target_side, Connection.eitem,
      Connection.off_start, Connection.off_end, truthyS,
      guess_approach_side, Rect.topLeft, connC4cex, S4comp, E4comp,
      max_def] <;>
    norm_num

/-- C4 amended: for every connection with a valid start side and
`start_adjust < -20`, provided the mid-segment scalar `path_offset` is 0,
the first planned segment (first to second waypoint) has length at least 10
units (squared distance at least 100).  The original claim fails only
because `path_offset` shifts the direct-branch midline arbitrarily close to
(or past) the start anchor. -/
theorem stub_clamp_amended (c : Connection ℚ)
    (hs : c.start_side = "top" ∨ c.start_side = "bottom" ∨
          c.start_side = "left" ∨ c.start_side = "right")
    (hadj : c.start_adjust < -20) (hpo : c.path_offset = 0)
    (w0 w1 : Pt ℚ)
    (h0 : c.calculate_path[0]? = some w0)
    (h1 : c.calculate_path[1]? = some w1) :
    100 ≤ sqDist w0 w1 := by
  have hos : (10 : ℚ) ≤ c.off_start := le_max_left _ _
  have hoe : (10 : ℚ) ≤ c.off_end := le_max_left _ _
  simp only [Connection.calculate_path] at h0 h1
  simp only [List.getElem?_cons_zero, Option.some.injEq] at h0
  subst h0
  simp only [List.getElem?_cons_succ] at h1
  rcases hs with hss | hss | hss | hss <;>
    simp [Connection.mid_points, hss] at h1 <;>
    split_ifs at h1 <;>
    simp at h1 <;>
    subst h1 <;>
    simp [sqDist, Connection.ns, hss, hpo] <;>
    nlinarith [sq_nonneg (c.get_start_pos.x - c.get_end_pos.x),
      sq_nonneg (c.get_start_pos.y - c.get_end_pos.y)]

/-- C4 witness: the amended clamp at the concrete connection `connC4wit`
(start_adjust = -25, path_offset = 0): its first segment (10,5)→(20,5) has
squared length exactly 100. -/
theorem stub_clamp_amended_witness :
    connC4wit.start_adjust < -20 ∧ 100 ≤ sqDist (⟨10, 5⟩ : Pt ℚ) ⟨20, 5⟩ := by
  refine ⟨by norm_num [connC4wit], ?_⟩
  refine stub_clamp_amended connC4wit (Or.inr (Or.inr (Or.inr rfl)))
    (by norm_num [connC4wit]) rfl ⟨10, 5⟩ ⟨20, 5⟩ ?_ ?_ <;>
    simp [Connection.calculate_path, Connection.mid_points,
      Connection.get_start_pos, Connection.get_end_pos, Connection.ns,
      Connection.pe, Connection.target_side, Connection.eitem,
      Connection.off_start, Connection.off_end, truthyS,
      guess_approach_side, Rect.topLeft, Rect.bottom, connC4wit, S4comp,
      E4comp, max_def] <;>
    norm_num

/-! ### C6 -/

/-- C6 counterexample: for the perpendicular pair start=right, target=top
the planner emits three intermediate points (ns, corner, pe), so the full
waypoint sequence has 5 points, not 4 as claimed. -/
theorem perpendicular_four_point_counterexample :
    connC6cex.start_side = "right" ∧ connC6cex.target_side = "top" ∧
    connC6cex.calculate_path.length ≠ 4 := by
  refine ⟨rfl, ?_, ?_⟩ <;>
    simp [Connection.calculate_path, Connection.mid_points,
      Connection.get_start_pos, Connection.get_end_pos, Connection.ns,
      Connection.pe, Connection.target_side, Connection.eitem,
      Connection.off_start, Connection.off_end, truthyS,
      guess_approach_side, Rect.topLeft, connC6cex, S6comp, E6comp]

/-- C6 amended: for every perpendicular (start_side, target_side) pair the
planner returns exactly 3 intermediate points — ns, a corner sharing one
coordinate with ns and the other with pe, and pe — so the full waypoint
sequence has exactly 5 points. -/
theorem perpendicular_five_point_path (c : Connection ℚ)
    (h : (c.start_side = "left" ∨ c.start_side = "right") ∧
           (c.target_side = "top" ∨ c.target_side = "bottom") ∨
         (c.start_side = "top" ∨ c.start_side = "bottom") ∧
           (c.target_side = "left" ∨ c.target_side = "right")) :
    c.calculate_path =
      [c.get_start_pos, c.ns, ⟨c.ns.x, c.pe.y⟩, c.pe, c.get_end_pos] ∨
    c.calculate_path =
      [c.get_start_pos, c.ns, ⟨c.pe.x, c.ns.y⟩, c.pe, c.get_end_pos] := by
  rcases h with ⟨hss | hss, hts | hts⟩ | ⟨hss | hss, hts | hts⟩ <;>
    [left; left; left; left; right; right; right; right] <;>
    simp [Connection.calculate_path, Connection.mid_points, hss, hts]

/-- C6 witness: the amended perpendicular shape at the concrete connection
`connC6wit` (start left, target bottom). -/
theorem perpendicular_five_point_path_witness :
    connC6wit.calculate_path =
      [connC6wit.get_start_pos, connC6wit.ns,
        ⟨connC6wit.ns.x, connC6wit.pe.y⟩, connC6wit.pe,
        connC6wit.get_end_pos] ∨
    connC6wit.calculate_path =
      [connC6wit.get_start_pos, connC6wit.ns,
        ⟨connC6wit.pe.x, connC6wit.ns.y⟩, connC6wit.pe,
        connC6wit.get_end_pos] :=
  perpendicular_five_point_path connC6wit
    (Or.inl ⟨Or.inl rfl,
      Or.inr (by simp [Connection.target_side, truthyS, connC6wit])⟩)

/-! ### Compositor helper lemmas -/

theorem findIdx_append_of_any {α : Type} (p : α → Bool) (l l' : List α)
    (h : l.any p = true) : (l ++ l').findIdx p = l.findIdx p := by
  induction l with
  | nil => simp at h
  | cons a t ih =>
    rw [List.cons_append, List.findIdx_cons, List.findIdx_cons]
    cases hpa : p a with
    | true => simp
    | false =>
      simp only [cond_false]
      rw [ih (by simpa [hpa] using h)]

theorem findIdx_append_of_not_any {α : Type} (p : α → Bool) (l l' : List α)
    (h : l.any p = false) : (l ++ l').findIdx p = l.length + l'.findIdx p := by
  induction l with
  | nil => simp
  | cons a t ih =>
    simp only [List.any_cons, Bool.or_eq_false_iff] at h
    rw [List.cons_append, List.findIdx_cons, h.1, cond_false, ih h.2,
      List.length_cons]
    omega

theorem flatMap_eq_nil_of_forall {α β : Type} (f : α → List β) (l : List α)
    (h : ∀ x ∈ l, f x = []) : l.flatMap f = [] := by
  induction l with
  | nil => rfl
  | cons a t ih =>
    rw [List.flatMap_cons, h a (by simp),
      ih fun x hx => h x (by simp [hx])]
    rfl

theorem flatMap_single_block {α β : Type} (f : α → List β) (l1 l2 : List α)
    (a : α) (h1 : ∀ x ∈ l1, f x = []) (h2 : ∀ x ∈ l2, f x = []) :
    (l1 ++ a :: l2).flatMap f = f a := by
  rw [List.flatMap_append, List.flatMap_cons,
    flatMap_eq_nil_of_forall f l1 h1, flatMap_eq_nil_of_forall f l2 h2]
  simp

theorem getElem?_split {α : Type} {l : List α} {i : Nat} {a : α}
    (h : l[i]? = some a) : ∃ s t, l = s ++ a :: t ∧ s.length = i := by
  induction l generalizing i with
  | nil => simp at h
  | cons b t ih =>
    cases i with
    | zero =>
      simp only [List.getElem?_cons_zero, Option.some.injEq] at h
      exact ⟨[], t, by rw [h]; rfl, rfl⟩
    | succ n =>
      simp only [List.getElem?_cons_succ] at h
      obtain ⟨s, t', rfl, hl⟩ := ih h
      exact ⟨b :: s, t', rfl, by simp [hl]⟩

theorem segment_elems_no_siblings (self : Connection ℝ) (p1 p2 : Pt ℝ) :
    segment_elems self [] p1 p2 =
      if distE p2 p1 < 0.1 then [] else [PathElem.lineTo p2] := by
  simp only [segment_elems, segment_intersections, List.flatMap_nil, sortAsc,
    List.foldr_nil, dedup_jumps, emit_jumps]
  split_ifs with h h0
  · rfl
  · simp
  · exact absurd (lt_of_lt_of_le (by norm_num) (not_lt.mp h)) h0

theorem generate_jump_path_no_siblings (c : Connection ℝ) :
    c.generate_jump_path [] = polylineSkipShort c.path := by
  unfold Connection.generate_jump_path polylineSkipShort
  cases hp : c.path with
  | nil => rfl
  | cons p0 rest =>
    congr 1
    have hfun : (fun q : Pt ℝ × Pt ℝ => segment_elems c [] q.1 q.2) =
        fun q : Pt ℝ × Pt ℝ =>
          if distE q.2 q.1 < 0.1 then [] else [PathElem.lineTo q.2] :=
      funext fun q => segment_elems_no_siblings c q.1 q.2
    rw [hfun]

theorem containsId_eq_true_of_mem {K : Type} [LinearOrderedField K]
    (sibs : List (Connection K)) (x : Connection K) (hx : x ∈ sibs) :
    containsId sibs x.id = true :=
  List.any_eq_true.mpr ⟨x, hx, by simp⟩

theorem flatMap_congr_mem {α β : Type} {f g : α → List β} (l : List α)
    (h : ∀ x ∈ l, f x = g x) : l.flatMap f = l.flatMap g := by
  induction l with
  | nil => rfl
  | cons a t ih =>
    rw [List.flatMap_cons, List.flatMap_cons, h a (by simp),
      ih fun x hx => h x (by simp [hx])]

theorem sib_intersections_append_empty (c o : Connection ℝ)
    (sibs : List (Connection ℝ)) (p1 p2 : Pt ℝ) (len : ℝ)
    (x : Connection ℝ) (hx : x ∈ sibs) :
    sib_intersections c (sibs ++ [o]) p1 p2 len x =
      sib_intersections c sibs p1 p2 len x := by
  have hxany : (sibs.any fun o' => o'.id == x.id) = true :=
    containsId_eq_true_of_mem sibs x hx
  have hidx_x : indexOfId (sibs ++ [o]) x.id = indexOfId sibs x.id :=
    findIdx_append_of_any _ sibs [o] hxany
  have hiff : (containsId (sibs ++ [o]) c.id = true ∧
      indexOfId (sibs ++ [o]) c.id < indexOfId (sibs ++ [o]) x.id) ↔
      (containsId sibs c.id = true ∧
        indexOfId sibs c.id < indexOfId sibs x.id) := by
    by_cases hc : containsId sibs c.id = true
    · have h1 : containsId (sibs ++ [o]) c.id = true := by
        simp only [containsId, List.any_append]
        simp only [containsId] at hc
        simp [hc]
      have h2 : indexOfId (sibs ++ [o]) c.id = indexOfId sibs c.id :=
        findIdx_append_of_any _ sibs [o] hc
      rw [h1, h2, hidx_x, hc]
    · have hcf : (sibs.any fun o' => o'.id == c.id) = false :=
        Bool.eq_false_iff.mpr hc
      by_cases hoc : o.id = c.id
      · have h1 : containsId (sibs ++ [o]) c.id = true := by
          simp [containsId, List.any_append, hoc]
        have h2 : indexOfId (sibs ++ [o]) c.id = sibs.length := by
          rw [indexOfId, findIdx_append_of_not_any _ sibs [o] hcf]
          simp [List.findIdx_cons, hoc]
        have h3 : indexOfId sibs x.id < sibs.length :=
          List.findIdx_lt_length_of_exists ⟨x, hx, by simp⟩
        rw [h1, h2, hidx_x]
        simp [hc]
        omega
      · have h1 : containsId (sibs ++ [o]) c.id = false := by
          simp [containsId, List.any_append, hcf, List.any_cons, hoc]
        rw [h1]
        simp [hc]
  unfold sib_intersections
  simp only [hiff]

theorem segment_intersections_append_empty (c o : Connection ℝ)
    (sibs : List (Connection ℝ)) (p1 p2 : Pt ℝ) (len : ℝ)
    (ho : o.path = []) :
    segment_intersections c (sibs ++ [o]) p1 p2 len =
      segment_intersections c sibs p1 p2 len := by
  unfold segment_intersections
  rw [List.flatMap_append]
  have hlast : sib_intersections c (sibs ++ [o]) p1 p2 len o = [] := by
    unfold sib_intersections
    split_ifs with h1 h2 h3
    · rfl
    · rfl
    · rfl
    · exact absurd (by simp [ho] : o.path.isEmpty = true) h3
  have h2 : ([o].flatMap (sib_intersections c (sibs ++ [o]) p1 p2 len)) = [] := by
    simp [hlast]
  rw [h2, List.append_nil]
  exact flatMap_congr_mem sibs fun x hx =>
    sib_intersections_append_empty c o sibs p1 p2 len x hx

theorem segment_elems_append_empty (c o : Connection ℝ)
    (sibs : List (Connection ℝ)) (p1 p2 : Pt ℝ) (ho : o.path = []) :
    segment_elems c (sibs ++ [o]) p1 p2 = segment_elems c sibs p1 p2 := by
  simp only [segment_elems]
  rw [segment_intersections_append_empty c o sibs p1 p2 (distE p2 p1) ho]

theorem generate_jump_path_append_empty (c o : Connection ℝ)
    (sibs : List (Connection ℝ)) (ho : o.path = []) :
    c.generate_jump_path (sibs ++ [o]) = c.generate_jump_path sibs := by
  unfold Connection.generate_jump_path
  have hseg : (fun q : Pt ℝ × Pt ℝ => segment_elems c (sibs ++ [o]) q.1 q.2) =
      fun q : Pt ℝ × Pt ℝ => segment_elems c sibs q.1 q.2 :=
    funext fun q => segment_elems_append_empty c o sibs q.1 q.2 ho
  rw [hseg]

theorem arcsOf_append {K : Type} [LinearOrderedField K]
    (l1 l2 : List (PathElem K)) :
    arcsOf (l1 ++ l2) = arcsOf l1 ++ arcsOf l2 := by
  induction l1 with
  | nil => rfl
  | cons e t ih => cases e <;> simp [arcsOf, ih]

theorem arcsOf_flatMap {α : Type} (f : α → List (PathElem ℝ)) (l : List α) :
    arcsOf (l.flatMap f) = l.flatMap fun x => arcsOf (f x) := by
  induction l with
  | nil => rfl
  | cons a t ih => rw [List.flatMap_cons, List.flatMap_cons, arcsOf_append, ih]

theorem arcsOf_polylineSkipShort (l : List (Pt ℝ)) :
    arcsOf (polylineSkipShort l) = [] := by
  cases l with
  | nil => rfl
  | cons p0 rest =>
    simp only [polylineSkipShort, arcsOf, arcsOf_flatMap]
    exact flatMap_eq_nil_of_forall _ _ fun q _ => by split_ifs <;> rfl

/-! ### C7 -/

/-- C7 (amended): the Jump Compositor never errors on degenerate inputs:
an empty waypoint list yields an empty render curve; with an empty sibling
list it yields an arc-free polyline through the first waypoint and the end
of every segment of length at least 0.1 (segments shorter than 0.1 are
dropped entirely, from drawing as well as from jump detection); a segment
shorter than 0.1 contributes no drawing operations at all; and a sibling
with an empty waypoint list is skipped (appending it to the sibling list
leaves the curve unchanged). -/
theorem compositor_degenerate_inputs :
    (∀ (c : Connection ℝ) (sibs : List (Connection ℝ)),
      c.path = [] → c.generate_jump_path sibs = []) ∧
    (∀ c : Connection ℝ,
      c.generate_jump_path [] = polylineSkipShort c.path ∧
      arcsOf (c.generate_jump_path []) = []) ∧
    (∀ (c : Connection ℝ) (sibs : List (Connection ℝ)) (p1 p2 : Pt ℝ),
      distE p2 p1 < 0.1 → segment_elems c sibs p1 p2 = []) ∧
    (∀ (c o : Connection ℝ) (sibs : List (Connection ℝ)), o.path = [] →
      c.generate_jump_path (sibs ++ [o]) = c.generate_jump_path sibs) := by
  refine ⟨?_, ?_, ?_, ?_⟩
  · intro c sibs hc
    simp [Connection.generate_jump_path, hc]
  · intro c
    refine ⟨generate_jump_path_no_siblings c, ?_⟩
    rw [generate_jump_path_no_siblings c, arcsOf_polylineSkipShort]
  · intro c sibs p1 p2 h
    simp only [segment_elems]
    rw [if_pos h]
  · intro c o sibs ho
    exact generate_jump_path_append_empty c o sibs ho

/-- C7 counterexample: for the waypoint list [(0,0), (0,0), (10,0)] — whose
first segment has length 0 < 0.1 — the no-sibling render curve drops the
degenerate segment's draw, so it is not the raw waypoint polyline that the
claim promises. -/
theorem raw_polyline_counterexample :
    connShortSeg.generate_jump_path [] ≠ rawPolyline connShortSeg.path := by
  rw [generate_jump_path_no_siblings]
  have e1 : distE (⟨0, 0⟩ : Pt ℝ) ⟨0, 0⟩ = 0 := by
    simp [distE]
  have e2 : distE (⟨10, 0⟩ : Pt ℝ) ⟨0, 0⟩ = 10 := by
    rw [distE]
    norm_num
    rw [show (100 : ℝ) = 10 ^ 2 by norm_num, Real.sqrt_sq (by norm_num)]
  intro h
  norm_num [polylineSkipShort, rawPolyline, connShortSeg, connR, segPairs,
    e1, e2] at h

/-- C7 witness: the degenerate-input behaviours at concrete connections:
an empty-path connection yields an empty curve, appending an empty-path
sibling changes nothing, and a zero-length segment contributes nothing. -/
theorem compositor_degenerate_inputs_witness :
    connEmptyPath.generate_jump_path [connPoly] = [] ∧
    connPoly.generate_jump_path ([connPoly] ++ [connEmptyPath]) =
      connPoly.generate_jump_path [connPoly] ∧
    segment_elems connPoly [] ⟨0, 0⟩ ⟨0, 0⟩ = [] := by
  obtain ⟨h1, -, h3, h4⟩ := compositor_degenerate_inputs
  refine ⟨h1 connEmptyPath [connPoly] rfl,
    h4 connPoly connEmptyPath [connPoly] rfl,
    h3 connPoly [] ⟨0, 0⟩ ⟨0, 0⟩ ?_⟩
  have e1 : distE (⟨0, 0⟩ : Pt ℝ) ⟨0, 0⟩ = 0 := by simp [distE]
  rw [e1]
  norm_num

/-! ### Intersection and arc-extraction helper lemmas -/

theorem intersectBounded_some {p1 p2 q1 q2 p : Pt ℝ}
    (h : intersectBounded p1 p2 q1 q2 = some p) :
    ∃ na : ℝ, 0 ≤ na ∧ na ≤ 1 ∧
      p = ⟨p1.x + (p2.x - p1.x) * na, p1.y + (p2.y - p1.y) * na⟩ := by
  simp only [intersectBounded] at h
  split_ifs at h with h1 h2 h3
  all_goals try exact Option.noConfusion h
  push_neg at h2
  simp only [Option.some.injEq] at h
  exact ⟨_, h2.1, h2.2, h.symm⟩

theorem distE_on_segment (p1 p2 : Pt ℝ) (na : ℝ) (hna : 0 ≤ na) :
    distE ⟨p1.x + (p2.x - p1.x) * na, p1.y + (p2.y - p1.y) * na⟩ p1 =
      na * distE p2 p1 := by
  unfold distE
  rw [show (p1.x + (p2.x - p1.x) * na - p1.x) ^ 2 +
      (p1.y + (p2.y - p1.y) * na - p1.y) ^ 2 =
      na ^ 2 * ((p2.x - p1.x) ^ 2 + (p2.y - p1.y) ^ 2) by ring]
  rw [Real.sqrt_mul (sq_nonneg na), Real.sqrt_sq hna]

theorem eq_of_mem_id_nodup {K : Type} [LinearOrderedField K]
    {sibs : List (Connection K)}
    (hnd : (sibs.map fun o => o.id).Nodup) {a b : Connection K}
    (ha : a ∈ sibs) (hb : b ∈ sibs) (hid : a.id = b.id) : a = b := by
  induction sibs with
  | nil => exact absurd ha (by simp)
  | cons c rest ih =>
    simp only [List.map_cons, List.nodup_cons] at hnd
    rcases List.mem_cons.mp ha with rfl | ha' <;>
      rcases List.mem_cons.mp hb with rfl | hb'
    · rfl
    · exact absurd (hid ▸ List.mem_map_of_mem (fun o => o.id) hb') hnd.1
    · exact absurd (hid ▸ List.mem_map_of_mem (fun o => o.id) ha') hnd.1
    · exact ih hnd.2 ha' hb'

theorem sib_intersections_eq_nil (self : Connection ℝ)
    (sibs : List (Connection ℝ)) (p1 p2 : Pt ℝ) (len : ℝ)
    (o : Connection ℝ)
    (h : o.id = self.id ∨
      (containsId sibs self.id = true ∧
        indexOfId sibs self.id < indexOfId sibs o.id) ∨
      (∀ q ∈ segPairs o.path, intersectBounded p1 p2 q.1 q.2 = none)) :
    sib_intersections self sibs p1 p2 len o = [] := by
  unfold sib_intersections
  split_ifs with h1 h2 h3
  · rfl
  · rfl
  · rfl
  · rcases h with h | h | h
    · exact absurd h h1
    · exact absurd h h2
    · exact flatMap_eq_nil_of_forall _ _ fun q hq => by rw [h q hq]

theorem sib_intersections_eq_single (self : Connection ℝ)
    (sibs : List (Connection ℝ)) (p1 p2 : Pt ℝ) (len : ℝ)
    (oA : Connection ℝ) (hid : ¬oA.id = self.id)
    (hnoskip : ¬(containsId sibs self.id = true ∧
      indexOfId sibs self.id < indexOfId sibs oA.id))
    (j : Nat) (a1 a2 p : Pt ℝ)
    (hj : (segPairs oA.path)[j]? = some (a1, a2))
    (hx : intersectBounded p1 p2 a1 a2 = some p)
    (hfilter : 6 < distE p p1 ∧ distE p p1 < len - 6)
    (huniq : ∀ j' q, j' ≠ j → (segPairs oA.path)[j']? = some q →
      intersectBounded p1 p2 q.1 q.2 = none) :
    sib_intersections self sibs p1 p2 len oA = [distE p p1] := by
  obtain ⟨s, t, hsplit, hslen⟩ := getElem?_split hj
  have hne : ¬(oA.path.isEmpty = true) := by
    intro hemp
    rw [List.isEmpty_iff.mp hemp] at hsplit
    simp [segPairs] at hsplit
  unfold sib_intersections
  rw [if_neg hid, if_neg hnoskip, if_neg hne, hsplit, flatMap_single_block]
  · rw [hx]
    simp only [if_pos hfilter]
  · intro x hxs
    obtain ⟨ix, hix⟩ := List.mem_iff_getElem?.mp hxs
    have hix_lt : ix < s.length := by
      by_contra hge
      rw [List.getElem?_eq_none (by omega)] at hix
      exact absurd hix (by simp)
    have hfull : (segPairs oA.path)[ix]? = some x := by
      rw [hsplit, List.getElem?_append, if_pos hix_lt]
      exact hix
    rw [huniq ix x (by omega) hfull]
  · intro x hxt
    obtain ⟨ix, hix⟩ := List.mem_iff_getElem?.mp hxt
    have hfull : (segPairs oA.path)[s.length + 1 + ix]? = some x := by
      rw [hsplit, List.getElem?_append, if_neg (by omega)]
      have : s.length + 1 + ix - s.length = ix + 1 := by omega
      rw [this, List.getElem?_cons_succ]
      exact hix
    rw [huniq (s.length + 1 + ix) x (by omega) hfull]

theorem segment_intersections_eq_nil_all (self : Connection ℝ)
    (sibs : List (Connection ℝ)) (p1 p2 : Pt ℝ) (len : ℝ)
    (h : ∀ o ∈ sibs, ¬o.id = self.id →
      ¬(containsId sibs self.id = true ∧
        indexOfId sibs self.id < indexOfId sibs o.id) →
      ∀ q ∈ segPairs o.path, intersectBounded p1 p2 q.1 q.2 = none) :
    segment_intersections self sibs p1 p2 len = [] := by
  unfold segment_intersections
  refine flatMap_eq_nil_of_forall _ _ fun o ho => ?_
  by_cases h1 : o.id = self.id
  · exact sib_intersections_eq_nil self sibs p1 p2 len o (Or.inl h1)
  by_cases h2 : containsId sibs self.id = true ∧
      indexOfId sibs self.id < indexOfId sibs o.id
  · exact sib_intersections_eq_nil self sibs p1 p2 len o (Or.inr (Or.inl h2))
  · exact sib_intersections_eq_nil self sibs p1 p2 len o
      (Or.inr (Or.inr (h o ho h1 h2)))

theorem segment_intersections_eq_single (self : Connection ℝ)
    (sibs : List (Connection ℝ)) (p1 p2 : Pt ℝ) (len : ℝ)
    (oA : Connection ℝ) (hA : oA ∈ sibs)
    (hnd : (sibs.map fun o => o.id).Nodup)
    (hid : ¬oA.id = self.id)
    (hnoskip : ¬(containsId sibs self.id = true ∧
      indexOfId sibs self.id < indexOfId sibs oA.id))
    (j : Nat) (a1 a2 p : Pt ℝ)
    (hj : (segPairs oA.path)[j]? = some (a1, a2))
    (hx : intersectBounded p1 p2 a1 a2 = some p)
    (hfilter : 6 < distE p p1 ∧ distE p p1 < len - 6)
    (huniq : ∀ j' q, j' ≠ j → (segPairs oA.path)[j']? = some q →
      intersectBounded p1 p2 q.1 q.2 = none)
    (hothers : ∀ o ∈ sibs, ¬o.id = oA.id → ¬o.id = self.id →
      ∀ q ∈ segPairs o.path, intersectBounded p1 p2 q.1 q.2 = none) :
    segment_intersections self sibs p1 p2 len = [distE p p1] := by
  obtain ⟨s, t, hsibs⟩ := List.append_of_mem hA
  subst hsibs
  unfold segment_intersections
  rw [flatMap_single_block]
  · exact sib_intersections_eq_single self _ p1 p2 len oA hid hnoskip j a1 a2
      p hj hx hfilter huniq
  · intro x hxs
    have hxmem : x ∈ s ++ oA :: t := by simp [hxs]
    have hxid : ¬x.id = oA.id := by
      intro he
      have := eq_of_mem_id_nodup hnd hxmem hA he
      subst this
      rw [List.map_append, List.map_cons] at hnd
      exact (List.disjoint_of_nodup_append hnd)
        (List.mem_map_of_mem (fun o => o.id) hxs) (by simp)
    by_cases h1 : x.id = self.id
    · exact sib_intersections_eq_nil self _ p1 p2 len x (Or.inl h1)
    by_cases h2 : containsId (s ++ oA :: t) self.id = true ∧
        indexOfId (s ++ oA :: t) self.id < indexOfId (s ++ oA :: t) x.id
    · exact sib_intersections_eq_nil self _ p1 p2 len x (Or.inr (Or.inl h2))
    · exact sib_intersections_eq_nil self _ p1 p2 len x
        (Or.inr (Or.inr (hothers x hxmem hxid h1)))
  · intro x hxt
    have hxmem : x ∈ s ++ oA :: t := by simp [hxt]
    have hxid : ¬x.id = oA.id := by
      intro he
      have := eq_of_mem_id_nodup hnd hxmem hA he
      subst this
      rw [List.map_append, List.map_cons] at hnd
      have hnd2 := (List.nodup_append.mp hnd).2.1
      rw [List.nodup_cons] at hnd2
      exact hnd2.1 (List.mem_map_of_mem (fun o => o.id) hxt)
    by_cases h1 : x.id = self.id
    · exact sib_intersections_eq_nil self _ p1 p2 len x (Or.inl h1)
    by_cases h2 : containsId (s ++ oA :: t) self.id = true ∧
        indexOfId (s ++ oA :: t) self.id < indexOfId (s ++ oA :: t) x.id
    · exact sib_intersections_eq_nil self _ p1 p2 len x (Or.inr (Or.inl h2))
    · exact sib_intersections_eq_nil self _ p1 p2 len x
        (Or.inr (Or.inr (hothers x hxmem hxid h1)))

theorem mem_split_getElem?_left {α : Type} {l s t : List α} {a x : α}
    {j : Nat} (hsplit : l = s ++ a :: t) (hslen : s.length = j)
    (hx : x ∈ s) : ∃ i', i' ≠ j ∧ l[i']? = some x := by
  obtain ⟨ix, hix⟩ := List.mem_iff_getElem?.mp hx
  have hix_lt : ix < s.length := by
    by_contra hge
    rw [List.getElem?_eq_none (by omega)] at hix
    exact absurd hix (by simp)
  refine ⟨ix, by omega, ?_⟩
  rw [hsplit, List.getElem?_append, if_pos hix_lt]
  exact hix

theorem mem_split_getElem?_right {α : Type} {l s t : List α} {a x : α}
    {j : Nat} (hsplit : l = s ++ a :: t) (hslen : s.length = j)
    (hx : x ∈ t) : ∃ i', i' ≠ j ∧ l[i']? = some x := by
  obtain ⟨ix, hix⟩ := List.mem_iff_getElem?.mp hx
  refine ⟨s.length + 1 + ix, by omega, ?_⟩
  rw [hsplit, List.getElem?_append, if_neg (by omega)]
  have he : s.length + 1 + ix - s.length = ix + 1 := by omega
  rw [he, List.getElem?_cons_succ]
  exact hix

theorem arcsOf_emit_jumps (p1 u : Pt ℝ) (l : List ℝ) (cur : ℝ) :
    arcsOf (emit_jumps p1 u l cur).1 =
      l.map fun d => ((⟨p1.x + u.x * d, p1.y + u.y * d⟩ : Pt ℝ), (6 : ℝ)) := by
  induction l generalizing cur with
  | nil => rfl
  | cons d rest ih =>
    simp only [emit_jumps, List.map_cons]
    split_ifs with hline <;>
      simp only [List.cons_append, List.nil_append, arcsOf, arcsOf_append,
        ih] <;>
      refine congrArg₂ List.cons ?_ rfl <;>
      simp only [Prod.mk.injEq, Pt.mk.injEq] <;>
      refine ⟨⟨by ring, by ring⟩, by norm_num⟩

theorem segment_arcsOf_nil (self : Connection ℝ)
    (sibs : List (Connection ℝ)) (p1 p2 : Pt ℝ)
    (h : segment_intersections self sibs p1 p2 (distE p2 p1) = []) :
    arcsOf (segment_elems self sibs p1 p2) = [] := by
  simp only [segment_elems]
  rw [h, show sortAsc ([] : List ℝ) = [] from rfl,
    show dedup_jumps ([] : List ℝ) = [] from rfl]
  split_ifs <;> simp [arcsOf_append, arcsOf_emit_jumps, arcsOf]

theorem segment_arcsOf_single (self : Connection ℝ)
    (sibs : List (Connection ℝ)) (p1 p2 : Pt ℝ) (d : ℝ)
    (h : segment_intersections self sibs p1 p2 (distE p2 p1) = [d])
    (hf : 6 < d ∧ d < distE p2 p1 - 6) :
    arcsOf (segment_elems self sibs p1 p2) =
      [(⟨p1.x + (p2.x - p1.x) / distE p2 p1 * d,
         p1.y + (p2.y - p1.y) / distE p2 p1 * d⟩, 6)] := by
  have hlen : (12 : ℝ) < distE p2 p1 := by
    have h1 := hf.1
    have h2 := hf.2
    linarith
  simp only [segment_elems]
  rw [h, show sortAsc [d] = [d] from rfl,
    show dedup_jumps [d] = [d] from rfl,
    if_neg (by linarith : ¬distE p2 p1 < 0.1)]
  rw [arcsOf_append, arcsOf_emit_jumps]
  split_ifs <;> simp [arcsOf]

theorem arcsOf_generate (self : Connection ℝ) (sibs : List (Connection ℝ)) :
    arcsOf (self.generate_jump_path sibs) =
      (segPairs self.path).flatMap
        fun q => arcsOf (segment_elems self sibs q.1 q.2) := by
  unfold Connection.generate_jump_path
  cases hp : self.path with
  | nil => rfl
  | cons p0 rest =>
    show arcsOf (PathElem.moveTo p0 ::
        (segPairs (p0 :: rest)).flatMap
          fun q => segment_elems self sibs q.1 q.2) = _
    rw [show ∀ l : List (PathElem ℝ),
        arcsOf (PathElem.moveTo p0 :: l) = arcsOf l from fun l => rfl]
    exact arcsOf_flatMap _ _

theorem arcsOf_generate_nil (self : Connection ℝ)
    (sibs : List (Connection ℝ))
    (h : ∀ q ∈ segPairs self.path,
      segment_intersections self sibs q.1 q.2 (distE q.2 q.1) = []) :
    arcsOf (self.generate_jump_path sibs) = [] := by
  rw [arcsOf_generate]
  exact flatMap_eq_nil_of_forall _ _ fun q hq =>
    segment_arcsOf_nil self sibs q.1 q.2 (h q hq)

theorem arcsOf_generate_single (self : Connection ℝ)
    (sibs : List (Connection ℝ)) (i : Nat) (b1 b2 : Pt ℝ) (d : ℝ)
    (hi : (segPairs self.path)[i]? = some (b1, b2))
    (hseg : segment_intersections self sibs b1 b2 (distE b2 b1) = [d])
    (hf : 6 < d ∧ d < distE b2 b1 - 6)
    (hother : ∀ i' q, i' ≠ i → (segPairs self.path)[i']? = some q →
      segment_intersections self sibs q.1 q.2 (distE q.2 q.1) = []) :
    arcsOf (self.generate_jump_path sibs) =
      [(⟨b1.x + (b2.x - b1.x) / distE b2 b1 * d,
         b1.y + (b2.y - b1.y) / distE b2 b1 * d⟩, 6)] := by
  rw [arcsOf_generate]
  obtain ⟨s, t, hsplit, hslen⟩ := getElem?_split hi
  rw [hsplit, flatMap_single_block]
  · exact segment_arcsOf_single self sibs b1 b2 d hseg hf
  · intro x hxs
    obtain ⟨i', hne, hget⟩ := mem_split_getElem?_left hsplit hslen hxs
    exact segment_arcsOf_nil self sibs x.1 x.2 (hother i' x hne hget)
  · intro x hxt
    obtain ⟨i', hne, hget⟩ := mem_split_getElem?_right hsplit hslen hxt
    exact segment_arcsOf_nil self sibs x.1 x.2 (hother i' x hne hget)

/-! ### C2 -/

/-- C2: jump ownership is antisymmetric and total by creation-order index.
For connections A and B in the sibling list with A's index lower than B's,
whose waypoint paths have exactly one bounded crossing p — lying on B's
segment i and A's segment j, strictly farther than the jump radius 6 from
the endpoints of both segments, with no other crossing between A and B and
none between either of them and any third sibling — B's composed render
curve contains exactly one jump arc of radius 6 centered at p, and A's
contains zero arcs. -/
theorem jump_ownership_antisymmetric (A B : Connection ℝ)
    (sibs : List (Connection ℝ))
    (hnd : (sibs.map fun o => o.id).Nodup)
    (hA : A ∈ sibs) (hB : B ∈ sibs)
    (hidx : indexOfId sibs A.id < indexOfId sibs B.id)
    (i j : Nat) (b1 b2 a1 a2 p : Pt ℝ)
    (hBi : (segPairs B.path)[i]? = some (b1, b2))
    (hAj : (segPairs A.path)[j]? = some (a1, a2))
    (hx : intersectBounded b1 b2 a1 a2 = some p)
    (hdb : 6 < distE p b1 ∧ distE p b1 < distE b2 b1 - 6)
    (hda : 6 < distE p a1 ∧ distE p a1 < distE a2 a1 - 6)
    (huniq : ∀ i' j' qB qA, (i', j') ≠ (i, j) →
      (segPairs B.path)[i']? = some qB → (segPairs A.path)[j']? = some qA →
      intersectBounded qB.1 qB.2 qA.1 qA.2 = none)
    (hothers : ∀ o ∈ sibs, ¬o.id = A.id → ¬o.id = B.id →
      (∀ qB ∈ segPairs B.path, ∀ qo ∈ segPairs o.path,
        intersectBounded qB.1 qB.2 qo.1 qo.2 = none) ∧
      (∀ qA ∈ segPairs A.path, ∀ qo ∈ segPairs o.path,
        intersectBounded qA.1 qA.2 qo.1 qo.2 = none)) :
    arcsOf (B.generate_jump_path sibs) = [(p, 6)] ∧
    arcsOf (A.generate_jump_path sibs) = [] := by
  have hABid : ¬A.id = B.id := fun he => by rw [he] at hidx; exact lt_irrefl _ hidx
  obtain ⟨na, hna0, hna1, hp⟩ := intersectBounded_some hx
  have hL : (12 : ℝ) < distE b2 b1 := by
    have h1 := hdb.1
    have h2 := hdb.2
    linarith
  have hL0 : distE b2 b1 ≠ 0 := by linarith
  have hd : distE p b1 = na * distE b2 b1 := by
    rw [hp]; exact distE_on_segment b1 b2 na hna0
  constructor
  · have hseg : segment_intersections B sibs b1 b2 (distE b2 b1) =
        [distE p b1] := by
      refine segment_intersections_eq_single B sibs b1 b2 (distE b2 b1) A hA
        hnd hABid ?_ j a1 a2 p hAj hx hdb ?_ ?_
      · rintro ⟨-, hlt⟩
        omega
      · intro j' q hj' hq
        exact huniq i j' (b1, b2) q (by simp [hj']) hBi hq
      · intro o ho h1 h2 q hq
        exact (hothers o ho h1 h2).1 (b1, b2) (List.getElem?_mem hBi) q hq
    have hother : ∀ i' q, i' ≠ i → (segPairs B.path)[i']? = some q →
        segment_intersections B sibs q.1 q.2 (distE q.2 q.1) = [] := by
      intro i' q hi' hq
      refine segment_intersections_eq_nil_all B sibs q.1 q.2 _ ?_
      intro o ho ho1 ho2 qo hqo
      by_cases hoA : o.id = A.id
      · have hoeq : o = A := eq_of_mem_id_nodup hnd ho hA hoA
        subst hoeq
        obtain ⟨j'', hj''⟩ := List.mem_iff_getElem?.mp hqo
        exact huniq i' j'' q qo (by simp [hi']) hq hj''
      · exact (hothers o ho hoA ho1).1 q (List.getElem?_mem hq) qo hqo
    have harc := arcsOf_generate_single B sibs i b1 b2 (distE p b1) hBi hseg
      hdb hother
    rw [harc]
    have hc : (⟨b1.x + (b2.x - b1.x) / distE b2 b1 * distE p b1,
               b1.y + (b2.y - b1.y) / distE b2 b1 * distE p b1⟩ : Pt ℝ) = p := by
      rw [hd, hp]
      simp only [Pt.mk.injEq]
      constructor <;> (field_simp; ring)
    rw [hc]
  · refine arcsOf_generate_nil A sibs fun q hq => ?_
    refine segment_intersections_eq_nil_all A sibs q.1 q.2 _ ?_
    intro o ho ho1 ho2 qo hqo
    by_cases hoB : o.id = B.id
    · exfalso
      apply ho2
      exact ⟨containsId_eq_true_of_mem sibs A hA, by rw [hoB]; exact hidx⟩
    · exact (hothers o ho ho1 hoB).2 q hq qo hqo

/-! ### C10 -/

/-- C10: when the connection being composed is not an element of the
sibling list, the creation-order priority check is bypassed entirely: it
draws a jump arc over a qualifying crossing with a member of the list
regardless of that member's ordering index (here the member's position and
index are arbitrary — no index hypothesis relates it to `self`). -/
theorem jump_no_priority_when_absent (self oA : Connection ℝ)
    (sibs : List (Connection ℝ))
    (hnd : (sibs.map fun o => o.id).Nodup)
    (hnotin : containsId sibs self.id = false)
    (hoA : oA ∈ sibs)
    (i j : Nat) (b1 b2 a1 a2 p : Pt ℝ)
    (hBi : (segPairs self.path)[i]? = some (b1, b2))
    (hAj : (segPairs oA.path)[j]? = some (a1, a2))
    (hx : intersectBounded b1 b2 a1 a2 = some p)
    (hdb : 6 < distE p b1 ∧ distE p b1 < distE b2 b1 - 6)
    (huniq : ∀ i' j' qB qA, (i', j') ≠ (i, j) →
      (segPairs self.path)[i']? = some qB →
      (segPairs oA.path)[j']? = some qA →
      intersectBounded qB.1 qB.2 qA.1 qA.2 = none)
    (hothers : ∀ o ∈ sibs, ¬o.id = oA.id →
      ∀ qB ∈ segPairs self.path, ∀ qo ∈ segPairs o.path,
        intersectBounded qB.1 qB.2 qo.1 qo.2 = none) :
    arcsOf (self.generate_jump_path sibs) = [(p, 6)] := by
  have hid : ¬oA.id = self.id := by
    intro he
    have hc := containsId_eq_true_of_mem sibs oA hoA
    rw [he, hnotin] at hc
    exact Bool.noConfusion hc
  obtain ⟨na, hna0, hna1, hp⟩ := intersectBounded_some hx
  have hL : (12 : ℝ) < distE b2 b1 := by
    have h1 := hdb.1
    have h2 := hdb.2
    linarith
  have hL0 : distE b2 b1 ≠ 0 := by linarith
  have hd : distE p b1 = na * distE b2 b1 := by
    rw [hp]; exact distE_on_segment b1 b2 na hna0
  have hseg : segment_intersections self sibs b1 b2 (distE b2 b1) =
      [distE p b1] := by
    refine segment_intersections_eq_single self sibs b1 b2 (distE b2 b1) oA
      hoA hnd hid ?_ j a1 a2 p hAj hx hdb ?_ ?_
    · rintro ⟨hc, -⟩
      rw [hnotin] at hc
      exact Bool.noConfusion hc
    · intro j' q hj' hq
      exact huniq i j' (b1, b2) q (by simp [hj']) hBi hq
    · intro o ho h1 h2 q hq
      exact hothers o ho h1 (b1, b2) (List.getElem?_mem hBi) q hq
  have hother : ∀ i' q, i' ≠ i → (segPairs self.path)[i']? = some q →
      segment_intersections self sibs q.1 q.2 (distE q.2 q.1) = [] := by
    intro i' q hi' hq
    refine segment_intersections_eq_nil_all self sibs q.1 q.2 _ ?_
    intro o ho ho1 ho2 qo hqo
    by_cases hoA' : o.id = oA.id
    · have hoeq : o = oA := eq_of_mem_id_nodup hnd ho hoA hoA'
      subst hoeq
      obtain ⟨j'', hj''⟩ := List.mem_iff_getElem?.mp hqo
      exact huniq i' j'' q qo (by simp [hi']) hq hj''
    · exact hothers o ho hoA' q (List.getElem?_mem hq) qo hqo
  have harc := arcsOf_generate_single self sibs i b1 b2 (distE p b1) hBi hseg
    hdb hother
  rw [harc]
  have hc : (⟨b1.x + (b2.x - b1.x) / distE b2 b1 * distE p b1,
             b1.y + (b2.y - b1.y) / distE b2 b1 * distE p b1⟩ : Pt ℝ) = p := by
    rw [hd, hp]
    simp only [Pt.mk.injEq]
    constructor <;> (field_simp; ring)
  rw [hc]

/-- C2 witness: connection 0 runs horizontally through (0,0)–(100,0),
connection 1 vertically through (50,-50)–(50,50); they cross at (50,0), 50
units from every endpoint; the higher-index connection gets the single arc,
the lower-index one none. -/
theorem jump_ownership_antisymmetric_witness :
    arcsOf (connB2.generate_jump_path [connA2, connB2]) = [(⟨50, 0⟩, 6)] ∧
    arcsOf (connA2.generate_jump_path [connA2, connB2]) = [] := by
  have e1 : distE (⟨50, 0⟩ : Pt ℝ) ⟨50, -50⟩ = 50 := by
    rw [distE]
    norm_num
    rw [show (2500 : ℝ) = 50 ^ 2 by norm_num,
      Real.sqrt_sq (by norm_num : (0 : ℝ) ≤ 50)]
  have e2 : distE (⟨50, 50⟩ : Pt ℝ) ⟨50, -50⟩ = 100 := by
    rw [distE]
    norm_num
    rw [show (10000 : ℝ) = 100 ^ 2 by norm_num,
      Real.sqrt_sq (by norm_num : (0 : ℝ) ≤ 100)]
  have e3 : distE (⟨50, 0⟩ : Pt ℝ) ⟨0, 0⟩ = 50 := by
    rw [distE]
    norm_num
    rw [show (2500 : ℝ) = 50 ^ 2 by norm_num,
      Real.sqrt_sq (by norm_num : (0 : ℝ) ≤ 50)]
  have e4 : distE (⟨100, 0⟩ : Pt ℝ) ⟨0, 0⟩ = 100 := by
    rw [distE]
    norm_num
    rw [show (10000 : ℝ) = 100 ^ 2 by norm_num,
      Real.sqrt_sq (by norm_num : (0 : ℝ) ≤ 100)]
  refine jump_ownership_antisymmetric connA2 connB2 [connA2, connB2]
    ?_ ?_ ?_ ?_ 0 0 ⟨50, -50⟩ ⟨50, 50⟩ ⟨0, 0⟩ ⟨100, 0⟩ ⟨50, 0⟩
    ?_ ?_ ?_ ?_ ?_ ?_ ?_
  · simp [connA2, connB2, connR]
  · simp
  · simp
  · simp [indexOfId, List.findIdx_cons, connA2, connB2, connR]
  · rfl
  · rfl
  · simp only [intersectBounded]
    norm_num
  · rw [e1, e2]
    norm_num
  · rw [e3, e4]
    norm_num
  · rintro i' j' qB qA hne hqB hqA
    cases i' with
    | zero =>
      cases j' with
      | zero => exact absurd rfl hne
      | succ n => simp [segPairs, connA2, connR] at hqA
    | succ n => simp [segPairs, connB2, connR] at hqB
  · intro o ho h1 h2
    rcases List.mem_cons.mp ho with rfl | ho'
    · exact absurd rfl h1
    rcases List.mem_cons.mp ho' with rfl | ho''
    · exact absurd rfl h2
    · exact absurd ho'' (by simp)

/-- C10 witness: `connSelf10` (id 5) is absent from the sibling list
`[connO10]` (id 3, a lower id, so the index check would not matter anyway);
it still jumps over the qualifying crossing at (50,0). -/
theorem jump_no_priority_when_absent_witness :
    arcsOf (connSelf10.generate_jump_path [connO10]) = [(⟨50, 0⟩, 6)] := by
  have e3 : distE (⟨50, 0⟩ : Pt ℝ) ⟨0, 0⟩ = 50 := by
    rw [distE]
    norm_num
    rw [show (2500 : ℝ) = 50 ^ 2 by norm_num,
      Real.sqrt_sq (by norm_num : (0 : ℝ) ≤ 50)]
  have e4 : distE (⟨100, 0⟩ : Pt ℝ) ⟨0, 0⟩ = 100 := by
    rw [distE]
    norm_num
    rw [show (10000 : ℝ) = 100 ^ 2 by norm_num,
      Real.sqrt_sq (by norm_num : (0 : ℝ) ≤ 100)]
  refine jump_no_priority_when_absent connSelf10 connO10 [connO10]
    ?_ ?_ ?_ 0 0 ⟨0, 0⟩ ⟨100, 0⟩ ⟨50, -50⟩ ⟨50, 50⟩ ⟨50, 0⟩
    ?_ ?_ ?_ ?_ ?_ ?_
  · simp
  · simp [containsId, connSelf10, connO10, connR]
  · simp
  · rfl
  · rfl
  · simp only [intersectBounded]
    norm_num
  · rw [e3, e4]
    norm_num
  · rintro i' j' qB qA hne hqB hqA
    cases i' with
    | zero =>
      cases j' with
      | zero => exact absurd rfl hne
      | succ n => simp [segPairs, connO10, connR] at hqA
    | succ n => simp [segPairs, connSelf10, connR] at hqB
  · intro o ho h1
    rcases List.mem_cons.mp ho with rfl | ho'
    · exact absurd rfl h1
    · exact absurd ho' (by simp)

/-! ### Frame-update helper lemmas (C3) -/

theorem any_beq_map {K : Type} [LinearOrderedField K]
    (L : List (Connection K)) (i : Nat) :
    (L.map fun o => o.id).any (fun x => x == i) = containsId L i := by
  induction L with
  | nil => rfl
  | cons a t ih => simp [containsId, List.any_cons] at ih ⊢; rw [ih]

theorem findIdx_beq_map {K : Type} [LinearOrderedField K]
    (L : List (Connection K)) (i : Nat) :
    (L.map fun o => o.id).findIdx (fun x => x == i) = indexOfId L i := by
  induction L with
  | nil => rfl
  | cons a t ih =>
    simp only [indexOfId] at ih ⊢
    rw [List.map_cons, List.findIdx_cons, List.findIdx_cons, ih]

theorem findIdx_beq_eq_of_nodup (ids : List Nat) (hnd : ids.Nodup)
    (k : Nat) (v : Nat) (hk : ids[k]? = some v) :
    ids.findIdx (fun x => x == v) = k := by
  induction ids generalizing k with
  | nil => simp at hk
  | cons a t ih =>
    rw [List.nodup_cons] at hnd
    cases k with
    | zero =>
      simp only [List.getElem?_cons_zero, Option.some.injEq] at hk
      subst hk
      simp [List.findIdx_cons]
    | succ n =>
      simp only [List.getElem?_cons_succ] at hk
      have hvt : v ∈ t := List.getElem?_mem hk
      have hav : ¬(a == v) = true := by
        simp only [beq_iff_eq]
        rintro rfl
        exact hnd.1 hvt
      rw [List.findIdx_cons, Bool.cond_eq_if, if_neg hav, ih hnd.2 n hk]

theorem getElem?_findIdx_beq (ids : List Nat) (v : Nat) (hv : v ∈ ids) :
    ids[ids.findIdx fun x => x == v]? = some v := by
  induction ids with
  | nil => exact absurd hv (by simp)
  | cons a t ih =>
    rw [List.findIdx_cons, Bool.cond_eq_if]
    by_cases hav : (a == v) = true
    · rw [if_pos hav]
      simp only [beq_iff_eq] at hav
      simp [hav]
    · rw [if_neg hav]
      simp only [beq_iff_eq] at hav
      have hvt : v ∈ t := by
        rcases List.mem_cons.mp hv with rfl | h
        · exact absurd rfl hav
        · exact h
      simpa using ih hvt

theorem flatMap_congr_pos {α β : Type} (f g : α → List β) (L L' : List α)
    (hlen : L.length = L'.length)
    (h : ∀ (k : Nat) (o o' : α), L[k]? = some o → L'[k]? = some o' → f o = g o') :
    L.flatMap f = L'.flatMap g := by
  induction L generalizing L' with
  | nil =>
    cases L' with
    | nil => rfl
    | cons a t => simp at hlen
  | cons a t ih =>
    cases L' with
    | nil => simp at hlen
    | cons a' t' =>
      rw [List.flatMap_cons, List.flatMap_cons,
        h 0 a a' (by simp) (by simp),
        ih t' (by simpa using hlen) fun k o o' ho ho' =>
          h (k + 1) o o' (by simpa using ho) (by simpa using ho')]

theorem sib_intersections_congr (self : Connection ℝ)
    (L L' : List (Connection ℝ)) (p1 p2 : Pt ℝ) (len : ℝ)
    (hids : L.map (fun o => o.id) = L'.map fun o => o.id)
    (hnd : (L.map fun o => o.id).Nodup)
    (hmem : self.id ∈ L.map fun o => o.id)
    (hpaths : ∀ (k : Nat), k < indexOfId L self.id →
      ∀ (o o' : Connection ℝ), L[k]? = some o → L'[k]? = some o' →
        o.path = o'.path)
    (k : Nat) (o o' : Connection ℝ)
    (hk : L[k]? = some o) (hk' : L'[k]? = some o') :
    sib_intersections self L p1 p2 len o =
      sib_intersections self L' p1 p2 len o' := by
  have hoid : o'.id = o.id := by
    have h1 : (L.map fun o => o.id)[k]? = some o.id := by
      rw [List.getElem?_map, hk]; rfl
    have h2 : (L'.map fun o => o.id)[k]? = some o'.id := by
      rw [List.getElem?_map, hk']; rfl
    rw [hids] at h1
    rw [h1] at h2
    exact (Option.some.inj h2).symm
  have hnd' : (L'.map fun o => o.id).Nodup := hids ▸ hnd
  have hcont : containsId L self.id = true := by
    rw [← any_beq_map]
    exact List.any_eq_true.mpr ⟨self.id, hmem, by simp⟩
  have hcont' : containsId L' self.id = true := by
    rw [← any_beq_map, ← hids, any_beq_map]; exact hcont
  have hidxself : indexOfId L' self.id = indexOfId L self.id := by
    rw [← findIdx_beq_map, ← hids, findIdx_beq_map]
  have hidxo : indexOfId L o.id = k := by
    rw [← findIdx_beq_map]
    exact findIdx_beq_eq_of_nodup _ hnd k o.id
      (by rw [List.getElem?_map, hk]; rfl)
  have hidxo' : indexOfId L' o'.id = k := by
    rw [← findIdx_beq_map]
    exact findIdx_beq_eq_of_nodup _ hnd' k o'.id
      (by rw [List.getElem?_map, hk']; rfl)
  by_cases hself : o.id = self.id
  · unfold sib_intersections
    rw [if_pos hself, if_pos (by rw [hoid]; exact hself)]
  · have hself' : ¬o'.id = self.id := by rw [hoid]; exact hself
    by_cases hskip : indexOfId L self.id < k
    · unfold sib_intersections
      rw [if_neg hself, if_neg hself',
        if_pos (show containsId L self.id = true ∧
            indexOfId L self.id < indexOfId L o.id from
          ⟨hcont, by rw [hidxo]; exact hskip⟩),
        if_pos (show containsId L' self.id = true ∧
            indexOfId L' self.id < indexOfId L' o'.id from
          ⟨hcont', by rw [hidxo', hidxself]; exact hskip⟩)]
    · have hkne : k ≠ indexOfId L self.id := by
        intro he
        have hg : (L.map fun o => o.id)[indexOfId L self.id]? =
            some self.id := by
          rw [← findIdx_beq_map]
          exact getElem?_findIdx_beq _ self.id hmem
        rw [← he, List.getElem?_map, hk] at hg
        simp only [Option.map_some', Option.some.injEq] at hg
        exact hself hg
      have hklt : k < indexOfId L self.id := by omega
      have hpath := hpaths k hklt o o' hk hk'
      unfold sib_intersections
      rw [if_neg hself, if_neg hself',
        if_neg (show ¬(containsId L self.id = true ∧
            indexOfId L self.id < indexOfId L o.id) from by
          rintro ⟨-, hlt⟩; rw [hidxo] at hlt; omega),
        if_neg (show ¬(containsId L' self.id = true ∧
            indexOfId L' self.id < indexOfId L' o'.id) from by
          rintro ⟨-, hlt⟩; rw [hidxo', hidxself] at hlt; omega)]
      simp only [hpath]

theorem generate_jump_path_congr (self : Connection ℝ)
    (L L' : List (Connection ℝ))
    (hids : L.map (fun o => o.id) = L'.map fun o => o.id)
    (hnd : (L.map fun o => o.id).Nodup)
    (hmem : self.id ∈ L.map fun o => o.id)
    (hpaths : ∀ (k : Nat), k < indexOfId L self.id →
      ∀ (o o' : Connection ℝ), L[k]? = some o → L'[k]? = some o' →
        o.path = o'.path) :
    self.generate_jump_path L = self.generate_jump_path L' := by
  have hlen : L.length = L'.length := by
    have := congrArg List.length hids
    rwa [List.length_map, List.length_map] at this
  have hseg : ∀ q : Pt ℝ × Pt ℝ,
      segment_elems self L q.1 q.2 = segment_elems self L' q.1 q.2 := by
    intro q
    simp only [segment_elems]
    rw [show segment_intersections self L q.1 q.2 (distE q.2 q.1) =
        segment_intersections self L' q.1 q.2 (distE q.2 q.1) from
      flatMap_congr_pos _ _ L L' hlen fun k o o' hk hk' =>
        sib_intersections_congr self L L' q.1 q.2 (distE q.2 q.1) hids
          hnd hmem hpaths k o o' hk hk']
  unfold Connection.generate_jump_path
  rw [show (fun q : Pt ℝ × Pt ℝ => segment_elems self L q.1 q.2) =
      fun q : Pt ℝ × Pt ℝ => segment_elems self L' q.1 q.2 from
    funext hseg]

theorem set_append_len {α : Type} (A : List α) (b c : α) (B : List α) :
    (A ++ b :: B).set A.length c = A ++ c :: B := by
  induction A with
  | nil => rfl
  | cons a t ih => simp [List.set_cons_succ, ih]

theorem take_getElem_drop {α : Type} {l : List α} {n : Nat} {v : α}
    (h : l[n]? = some v) : l.take n ++ v :: l.drop (n + 1) = l := by
  have hn : n < l.length := by
    by_contra hge
    rw [List.getElem?_eq_none (by omega)] at h
    exact absurd h (by simp)
  have hv : l[n] = v := by
    have := List.getElem?_eq_getElem hn
    rw [h] at this
    exact (Option.some.inj this).symm
  rw [← hv, ← List.drop_eq_getElem_cons hn, List.take_append_drop]

theorem ids_plan_all (cs : List (Connection ℝ)) :
    (plan_all cs).map (fun o => o.id) = cs.map fun o => o.id := by
  unfold plan_all
  rw [List.map_map]
  rfl

theorem plan_all_length (cs : List (Connection ℝ)) :
    (plan_all cs).length = cs.length := by
  simp [plan_all]

theorem plan_all_getElem? (cs : List (Connection ℝ)) (k : Nat) :
    (plan_all cs)[k]? = (cs[k]?).map plan_conn := by
  simp [plan_all, List.getElem?_map]

theorem frame_step_fst (st : List (Connection ℝ) × List FrameEvent)
    (i : Nat) :
    (frame_step st i).1 =
      match st.1[i]? with
      | none => st.1
      | some c => (st.1.set i (plan_conn c)).set i
          (compose_with (st.1.set i (plan_conn c)) (plan_conn c)) := by
  unfold frame_step
  cases st.1[i]? <;> rfl

theorem compose_with_congr {L L' : List (Connection ℝ)}
    (x : Connection ℝ)
    (h : x.generate_jump_path L = x.generate_jump_path L') :
    compose_with L x = compose_with L' x := by
  unfold compose_with
  rw [h]

theorem frame_invariant (cs : List (Connection ℝ))
    (hnd : (cs.map fun o => o.id).Nodup) :
    ∀ k, k ≤ cs.length →
      ((List.range k).foldl frame_step
        (cs, ([] : List FrameEvent))).1 = hybrid_frame cs k := by
  intro k
  induction k with
  | zero =>
    intro _
    simp [hybrid_frame]
  | succ n ih =>
    intro hk
    have hn : n < cs.length := by omega
    rw [List.range_succ, List.foldl_append, List.foldl_cons,
      List.foldl_nil, frame_step_fst]
    have hprev : ((List.range n).foldl frame_step
        (cs, ([] : List FrameEvent))).1 = hybrid_frame cs n := ih (by omega)
    rw [hprev]
    obtain ⟨cn, hcn⟩ : ∃ cn, cs[n]? = some cn :=
      ⟨cs[n], List.getElem?_eq_getElem hn⟩
    have hMlen : (((plan_all cs).take n).map
        (compose_with (plan_all cs))).length = n := by
      rw [List.length_map, List.length_take, plan_all_length]
      omega
    have hdropn : cs.drop n = cn :: cs.drop (n + 1) := by
      rw [List.drop_eq_getElem_cons hn]
      have := List.getElem?_eq_getElem hn
      rw [hcn] at this
      rw [Option.some.inj this]
    have hhyb : hybrid_frame cs n =
        ((plan_all cs).take n).map (compose_with (plan_all cs)) ++
          cn :: cs.drop (n + 1) := by
      rw [hybrid_frame, hdropn]
    rw [hhyb]
    have hget : (((plan_all cs).take n).map (compose_with (plan_all cs)) ++
        cn :: cs.drop (n + 1))[n]? = some cn := by
      rw [List.getElem?_append, if_neg (by omega),
        show n - (((plan_all cs).take n).map
          (compose_with (plan_all cs))).length = 0 by omega]
      simp
    rw [hget]
    show ((((plan_all cs).take n).map (compose_with (plan_all cs)) ++
          cn :: cs.drop (n + 1)).set n (plan_conn cn)).set n
        (compose_with ((((plan_all cs).take n).map
            (compose_with (plan_all cs)) ++
          cn :: cs.drop (n + 1)).set n (plan_conn cn)) (plan_conn cn)) =
      hybrid_frame cs (n + 1)
    have hset1 : (((plan_all cs).take n).map (compose_with (plan_all cs)) ++
        cn :: cs.drop (n + 1)).set n (plan_conn cn) =
        ((plan_all cs).take n).map (compose_with (plan_all cs)) ++
          plan_conn cn :: cs.drop (n + 1) := by
      have hs := set_append_len
        (((plan_all cs).take n).map (compose_with (plan_all cs))) cn
        (plan_conn cn) (cs.drop (n + 1))
      rw [hMlen] at hs
      exact hs
    rw [hset1]
    have hset2 : (((plan_all cs).take n).map (compose_with (plan_all cs)) ++
        plan_conn cn :: cs.drop (n + 1)).set n
          (compose_with (((plan_all cs).take n).map
              (compose_with (plan_all cs)) ++
            plan_conn cn :: cs.drop (n + 1)) (plan_conn cn)) =
        ((plan_all cs).take n).map (compose_with (plan_all cs)) ++
          compose_with (((plan_all cs).take n).map
              (compose_with (plan_all cs)) ++
            plan_conn cn :: cs.drop (n + 1)) (plan_conn cn) ::
          cs.drop (n + 1) := by
      have hs := set_append_len
        (((plan_all cs).take n).map (compose_with (plan_all cs)))
        (plan_conn cn)
        (compose_with (((plan_all cs).take n).map
            (compose_with (plan_all cs)) ++
          plan_conn cn :: cs.drop (n + 1)) (plan_conn cn))
        (cs.drop (n + 1))
      rw [hMlen] at hs
      exact hs
    rw [hset2]
    -- identify the interleaved sibling list's ids with the planned list's
    have hidsL : (((plan_all cs).take n).map (compose_with (plan_all cs)) ++
        plan_conn cn :: cs.drop (n + 1)).map (fun o => o.id) =
        cs.map fun o => o.id := by
      rw [List.map_append, List.map_cons, List.map_map, List.map_drop,
        show ((fun o : Connection ℝ => o.id) ∘
          compose_with (plan_all cs)) = fun o => o.id from rfl,
        List.map_take, ids_plan_all,
        show (plan_conn cn).id = cn.id from rfl]
      exact take_getElem_drop (by rw [List.getElem?_map, hcn]; rfl)
    have hcnid : (cs.map fun o => o.id)[n]? = some cn.id := by
      rw [List.getElem?_map, hcn]; rfl
    have hkey : (plan_conn cn).generate_jump_path
        (((plan_all cs).take n).map (compose_with (plan_all cs)) ++
          plan_conn cn :: cs.drop (n + 1)) =
        (plan_conn cn).generate_jump_path (plan_all cs) := by
      apply generate_jump_path_congr
      · rw [hidsL, ids_plan_all]
      · rw [hidsL]; exact hnd
      · rw [hidsL]
        exact List.mem_iff_getElem?.mpr ⟨n, hcnid⟩
      · have hidx : indexOfId (((plan_all cs).take n).map
            (compose_with (plan_all cs)) ++
            plan_conn cn :: cs.drop (n + 1)) (plan_conn cn).id = n := by
          rw [← findIdx_beq_map, hidsL]
          exact findIdx_beq_eq_of_nodup _ hnd n cn.id hcnid
        rw [hidx]
        intro k hklt o o' ho ho'
        obtain ⟨ck, hck⟩ : ∃ ck, cs[k]? = some ck := by
          have hkcs : k < cs.length := by omega
          exact ⟨cs[k], List.getElem?_eq_getElem hkcs⟩
        have hoL : o = compose_with (plan_all cs) (plan_conn ck) := by
          rw [List.getElem?_append, if_pos (by omega), List.getElem?_map,
            List.getElem?_take, if_pos hklt, plan_all_getElem?, hck] at ho
          exact (Option.some.inj ho).symm
        have hoR : o' = plan_conn ck := by
          rw [plan_all_getElem?, hck] at ho'
          exact (Option.some.inj ho').symm
        rw [hoL, hoR]
        rfl
    rw [hybrid_frame, List.take_succ,
      show (plan_all cs)[n]? = some (plan_conn cn) from by
        rw [plan_all_getElem?, hcn]; rfl,
      Option.toList_some, List.map_append, List.map_singleton,
      List.append_assoc, List.singleton_append]
    rw [compose_with_congr (plan_conn cn) hkey]

theorem frame_step_snd (st : List (Connection ℝ) × List FrameEvent)
    (i : Nat) (h : i < st.1.length) :
    (frame_step st i).2 =
      st.2 ++ [FrameEvent.plan i, FrameEvent.compose i] := by
  unfold frame_step
  obtain ⟨c, hc⟩ : ∃ c, st.1[i]? = some c :=
    ⟨st.1[i], List.getElem?_eq_getElem h⟩
  rw [hc]

theorem frame_step_length (st : List (Connection ℝ) × List FrameEvent)
    (i : Nat) : (frame_step st i).1.length = st.1.length := by
  unfold frame_step
  cases h : st.1[i]? with
  | none => rfl
  | some c => simp

theorem frame_trace_two : (draw_connections csFrame).2 =
    [FrameEvent.plan 0, FrameEvent.compose 0,
     FrameEvent.plan 1, FrameEvent.compose 1] := by
  have hlen : csFrame.length = 2 := by simp [csFrame]
  unfold draw_connections
  rw [hlen, show List.range 2 = [0, 1] from rfl, List.foldl_cons,
    List.foldl_cons, List.foldl_nil]
  rw [frame_step_snd _ 1 (by rw [frame_step_length]; simp [csFrame]),
    frame_step_snd (csFrame, []) 0 (by simp [csFrame])]
  simp

/-- C3 counterexample: the frame driver is not two-pass.  In the recorded
event trace of a two-connection frame the compositor for connection 0 runs
(at trace position 1) before the planner for connection 1 (at position 2),
contradicting "the Path Planner is run for every connection before the Jump
Compositor runs for any connection". -/
theorem two_pass_frame_counterexample :
    ¬(∀ (k l i j : Nat),
        ((draw_connections csFrame).2)[k]? = some (FrameEvent.compose i) →
        ((draw_connections csFrame).2)[l]? = some (FrameEvent.plan j) →
        l < k) := by
  intro h
  have h12 := h 1 2 0 1 (by rw [frame_trace_two]; simp)
    (by rw [frame_trace_two]; simp)
  omega

/-- C3 (amended): the frame update is a single interleaved pass — each
connection plans and immediately composes — but because the compositor
skips every sibling with a strictly larger index, each compositor call only
reads waypoints that the current frame has already recomputed, so for any
connection list with pairwise distinct identities the frame result is
exactly the spec's two-pass result. -/
theorem frame_interleaved_equals_two_pass (cs : List (Connection ℝ))
    (hnd : (cs.map fun o => o.id).Nodup) :
    (draw_connections cs).1 = two_pass_frame cs := by
  unfold draw_connections
  rw [frame_invariant cs hnd cs.length le_rfl]
  unfold hybrid_frame two_pass_frame
  rw [List.drop_length, List.append_nil,
    show (plan_all cs).take cs.length = plan_all cs from by
      rw [← plan_all_length cs]; exact List.take_length _]

/-- C3 witness: the interleaved frame of the concrete two-connection list
equals the two-pass frame. -/
theorem frame_interleaved_equals_two_pass_witness :
    (draw_connections csFrame).1 = two_pass_frame csFrame :=
  frame_interleaved_equals_two_pass csFrame
    (by simp [csFrame, connR])

/-! ### C9 -/

/-- C9: the Jump Compositor is idempotent — running `_generate_jump_path`
twice with unchanged waypoints and an unchanged sibling list leaves the
same state as running it once, and the produced curve is independent of
whatever `painter_path` previously held (it is rebuilt from scratch; the
only state the method writes is `painter_path` itself). -/
theorem compose_idempotent_no_hidden_state (c : Connection ℝ)
    (sibs : List (Connection ℝ)) (pp : List (PathElem ℝ)) :
    compose_with sibs (compose_with sibs c) = compose_with sibs c ∧
    compose_with sibs { c with painter_path := pp } = compose_with sibs c :=
  ⟨rfl, rfl⟩

/-! ### C8 -/

/-- C8: `to_dict(component_to_id)` returns the record of exactly the nine
serialized keys; a component reference absent from the id map — including
the `None` end component of an unbound connection — serializes as -1, a
present reference as its mapped id; the scalar/side/grip fields copy the
connection state; and the record does not depend on the derived fields
(`path`, `painter_path`). -/
theorem to_dict_serialization (c : Connection ℚ)
    (m : Component ℚ → Option Int) :
    (m c.start_component = none → (c.to_dict m).start_id = -1) ∧
    (∀ i, m c.start_component = some i → (c.to_dict m).start_id = i) ∧
    (c.end_component = none → (c.to_dict m).end_id = -1) ∧
    (∀ ec, c.end_component = some ec → m ec = none →
      (c.to_dict m).end_id = -1) ∧
    (∀ ec i, c.end_component = some ec → m ec = some i →
      (c.to_dict m).end_id = i) ∧
    (c.to_dict m).start_grip = c.start_grip_index ∧
    (c.to_dict m).start_side = c.start_side ∧
    (c.to_dict m).end_grip = c.end_grip_index ∧
    (c.to_dict m).end_side = c.end_side ∧
    (c.to_dict m).path_offset = c.path_offset ∧
    (c.to_dict m).start_adjust = c.start_adjust ∧
    (c.to_dict m).end_adjust = c.end_adjust ∧
    (∀ pts pp,
      Connection.to_dict { c with path := pts, painter_path := pp } m =
        c.to_dict m) := by
  refine ⟨?_, ?_, ?_, ?_, ?_, rfl, rfl, rfl, rfl, rfl, rfl, rfl, ?_⟩
  · intro h; simp [Connection.to_dict, h]
  · intro i h; simp [Connection.to_dict, h]
  · intro h; simp [Connection.to_dict, h]
  · intro ec h hm; simp [Connection.to_dict, h, hm]
  · intro ec i h hm; simp [Connection.to_dict, h, hm]
  · intro pts pp; rfl

/-- C8 witness: the serialization facts at the concrete unbound connection
`connC8` under the id map `idMapC8` (start component present with id 3,
end unbound). -/
theorem to_dict_serialization_witness :
    (connC8.to_dict idMapC8).start_id = 3 ∧
    (connC8.to_dict idMapC8).end_id = -1 := by
  obtain ⟨-, hsome, hnone, -, -, -⟩ := to_dict_serialization connC8 idMapC8
  exact ⟨hsome 3 (by simp [idMapC8, connC8, Xcomp]), hnone rfl⟩

end PFD
